import Mathlib

/-!
Shallow embedding of the dice-notation engine of `telegram-dice-maestro-oxide`:
the nom combinator grammar of `src/parser.rs` and the roll
simulation/selection/presentation code of `src/dice.rs`.

Strings are modelled as `List Char`.  Two distinct whitespace sets are in
play and both are modelled exactly: nom's `multispace0` recognises only
space, tab, carriage return and line feed (`isWS`), while Rust's `str::trim`
strips every character with the Unicode `White_Space` property
(`isRustWS`), a strict superset including U+000B, U+000C, U+0085, U+00A0 and
the Unicode space separators.
Machine-integer effects are explicit: `u32`/`i32` range checks guard the
`parse::<u32>()` / `parse::<i32>()` conversions (whose `.expect` panics are
modelled as the `panic` outcome), and the `i64` summation in `Roll::new` is
performed through a two's-complement wrap-around function `wrap64`.
-/

namespace DiceMaestro

/-- Outcome of a nom parser over `&str`: `panic` models a Rust panic coming
from an `.expect(..)`, `fail rest` models `Err(nom::error::Error { input: rest,
code: OneOf })` (every grammar failure in this parser originates in a `one_of`,
since `nom::error::Error::append` keeps the innermost error), and
`ok rest v` models `Ok((rest, v))`. -/
inductive PRes (α : Type) where
  | panic : PRes α
  | fail : List Char → PRes α
  | ok : List Char → α → PRes α
deriving DecidableEq, Repr

/-- Whitespace recognised by nom's `multispace0`. -/
def isWS (c : Char) : Bool := c == ' ' || c == '\t' || c == '\r' || c == '\n'

/-- Leading-whitespace removal: the effect of `multispace0`. -/
def dropWS (s : List Char) : List Char := s.dropWhile isWS

/-- The decimal digit characters, as in `one_of("0123456789")`. -/
def digitChars : List Char := "0123456789".data

/-- nom's `one_of(set)`: consume one character of `set` or fail, the error
keeping the input at the point of failure. -/
def oneOf (set : List Char) : List Char → PRes Char := fun s =>
  match s with
  | [] => .fail []
  | c :: rest => if c ∈ set then .ok rest c else .fail (c :: rest)

/-- The `ws` combinator of `src/parser.rs`: `delimited(multispace0, inner,
multispace0)`. -/
def wsP {α : Type} (p : List Char → PRes α) : List Char → PRes α := fun s =>
  match p (dropWS s) with
  | .ok r v => .ok (dropWS r) v
  | .fail e => .fail e
  | .panic => .panic

/-- `single_decimal` of `src/parser.rs`: one digit surrounded by whitespace. -/
def singleDecimal : List Char → PRes Char := wsP (oneOf digitChars)

/-- Numeric value of a digit character, as in `char` to value conversion
performed by `str::parse` on an all-digit string. -/
def digitVal (c : Char) : Nat := c.toNat - 48

/-- Value of an all-digit character run, most significant digit first. -/
def natOfDigits (ds : List Char) : Nat := ds.foldl (fun a c => 10 * a + digitVal c) 0

/-- nom's `many_m_n(mn, mx, p)` loop: up to `mx` applications of `p`,
failing only when `p` fails before `mn` successes.  (nom's no-progress guard
is omitted: `single_decimal`, the only parser iterated here, always consumes
at least the digit character on success.) -/
def manyMNgo {α : Type} (p : List Char → PRes α) : Nat → Nat → List Char → PRes (List α)
  | _, 0, s => .ok s []
  | mn, mx + 1, s =>
    match p s with
    | .panic => .panic
    | .fail e => if mn = 0 then .ok s [] else .fail e
    | .ok r v =>
      match manyMNgo p (mn - 1) mx r with
      | .ok r2 vs => .ok r2 (v :: vs)
      | .fail e => .fail e
      | .panic => .panic

/-- `decimal::<u32>(input, mn, mx)` of `src/parser.rs`: between `mn` and `mx`
whitespace-wrapped digits, assembled with `String::from_iter` and converted by
`.parse::<u32>().expect(..)`; the out-of-`u32`-range case is the panic. -/
def decimal (mn mx : Nat) : List Char → PRes Nat := fun s =>
  match manyMNgo singleDecimal mn mx s with
  | .panic => .panic
  | .fail e => .fail e
  | .ok r cs =>
    if natOfDigits cs < 4294967296 then .ok r (natOfDigits cs) else .panic

/-- `dice_seperator` of `src/parser.rs` (the `consumed` wrapper only mirrors
the matched slice and is dropped). -/
def diceSeparator : List Char → PRes Char := wsP (oneOf ['d', 'D'])

/-- `modifier_separator` of `src/parser.rs`. -/
def modifierSeparator : List Char → PRes Char := wsP (oneOf ['+', '-'])

/-- `RollSettings` of `src/dice.rs`, with the `label` field the parser of
`src/parser.rs` fills in (`number`/`sides` are `u32`, `modifier` is `i32`). -/
structure RollSettings where
  number : Nat
  sides : Nat
  modifier : Option Int
  label : Option (List Char)
deriving DecidableEq, Repr

/-- `ParseRollError` of `src/parser.rs`; `ParseError` holds the rendered
`nom::error::Error` message. -/
inductive ParseRollError where
  | ParseError : List Char → ParseRollError
  | CannotBeZero : List Char → ParseRollError
  | TooBig : ParseRollError
deriving DecidableEq, Repr

/-- Rendering of `nom::error::Error { input, code: OneOf }` by its `Display`
implementation, as stored into `ParseRollError::ParseError`. -/
def nomMessage (e : List Char) : List Char := "error OneOf at: ".data ++ e

instance {ε α : Type} [DecidableEq ε] [DecidableEq α] : DecidableEq (Except ε α) := fun a b =>
  match a, b with
  | .error x, .error y =>
    if h : x = y then .isTrue (by rw [h])
    else .isFalse (fun he => h (by cases he; rfl))
  | .error _, .ok _ => .isFalse (fun he => Except.noConfusion he)
  | .ok _, .error _ => .isFalse (fun he => Except.noConfusion he)
  | .ok x, .ok y =>
    if h : x = y then .isTrue (by rw [h])
    else .isFalse (fun he => h (by cases he; rfl))

/-- `parse_roll_inner` of `src/parser.rs`: numeric skeleton
`digits ('d'|'D') digits ([+-] digits)?`, where the modifier is rebuilt as
`format!("{}{}", sign, magnitude).parse::<i32>().expect(..)` (out-of-`i32`
range would panic). -/
def parseRollInner (input : List Char) : PRes RollSettings :=
  match decimal 1 4 input with
  | .panic => .panic
  | .fail e => .fail e
  | .ok r1 number =>
    match diceSeparator r1 with
    | .panic => .panic
    | .fail e => .fail e
    | .ok r2 _ =>
      match decimal 1 4 r2 with
      | .panic => .panic
      | .fail e => .fail e
      | .ok r3 sides =>
        match modifierSeparator r3 with
        | .panic => .panic
        | .fail _ => .ok r3 ⟨number, sides, none, none⟩
        | .ok r4 sign =>
          match decimal 1 4 r4 with
          | .panic => .panic
          | .fail _ => .ok r3 ⟨number, sides, none, none⟩
          | .ok r5 mag =>
            let m : Int := if sign = '-' then -(mag : Int) else (mag : Int)
            if -2147483648 ≤ m ∧ m < 2147483648 then
              .ok r5 ⟨number, sides, some m, none⟩
            else .panic

/-- Success test of `consumed(consumed(many1(single_decimal)))(remaining)`:
`many1` fails exactly when the first application of its inner parser fails and
the `consumed` wrappers do not alter `is_ok()`, so the overflow-digit check of
`parse_roll` only inspects whether `single_decimal` accepts `remaining`. -/
def many1DigitOk (s : List Char) : Bool :=
  match singleDecimal s with
  | .ok _ _ => true
  | _ => false

/-- The Unicode `White_Space` property, the set recognised by Rust's
`char::is_whitespace` and hence stripped by `str::trim`: U+0009–U+000D,
U+0020, U+0085, U+00A0, U+1680, U+2000–U+200A, U+2028, U+2029, U+202F,
U+205F and U+3000. -/
def isRustWS (c : Char) : Bool :=
  let n := c.toNat
  n == 0x09 || n == 0x0a || n == 0x0b || n == 0x0c || n == 0x0d || n == 0x20 ||
  n == 0x85 || n == 0xa0 || n == 0x1680 || (0x2000 ≤ n && n ≤ 0x200a) ||
  n == 0x2028 || n == 0x2029 || n == 0x202f || n == 0x205f || n == 0x3000

/-- Leading-whitespace removal with the `str::trim` whitespace set. -/
def dropRustWS (s : List Char) : List Char := s.dropWhile isRustWS

/-- Trailing-whitespace removal with the `str::trim` whitespace set. -/
def dropWSEnd (s : List Char) : List Char := (s.reverse.dropWhile isRustWS).reverse

/-- Rust's `str::trim`: surrounding Unicode `White_Space` removed. -/
def trim (s : List Char) : List Char := dropWSEnd (dropRustWS s)

/-- Whitespace-erasure of a string; two inputs are whitespace-variants of
each other exactly when their `strip`s agree. -/
def strip (s : List Char) : List Char := s.filter (fun c => !isWS c)

/-- The next non-whitespace character, if any, is not a digit: the condition
under which a greedy digit run stops at a given rest of the input. -/
def noLeadingDigit (s : List Char) : Prop :=
  dropWS s = [] ∨ ∃ c t, dropWS s = c :: t ∧ c ∉ digitChars

/-- `parse_roll` of `src/parser.rs`: run the numeric grammar, reject zero
`number`/`sides`, reject leftover text that starts (after whitespace) with a
digit, and store the trimmed leftover, when non-empty, as the label.
A `none` result models a panic escaping one of the `.expect` calls. -/
def parseRoll (input : List Char) : Option (Except ParseRollError RollSettings) :=
  match parseRollInner input with
  | .panic => none
  | .fail e => some (.error (.ParseError (nomMessage e)))
  | .ok remaining result =>
    if result.number = 0 ∨ result.sides = 0 then
      some (.error (.CannotBeZero input))
    else if many1DigitOk remaining then
      some (.error .TooBig)
    else
      if trim remaining = [] then some (.ok result)
      else some (.ok { result with label := some (trim remaining) })

/-! ## The roll engine of `src/dice.rs` -/

/-- Digit character of a value below ten. -/
def digitChar (n : Nat) : Char :=
  match n with
  | 0 => '0' | 1 => '1' | 2 => '2' | 3 => '3' | 4 => '4'
  | 5 => '5' | 6 => '6' | 7 => '7' | 8 => '8' | _ => '9'

/-- Fuel-driven decimal rendering; `fuel` bounds the recursion depth and any
`fuel` above the value itself is enough (see `natReprAux_fuel`). -/
def natReprAux : Nat → Nat → List Char
  | 0, _ => []
  | fuel + 1, n =>
    if n < 10 then [digitChar n]
    else natReprAux fuel (n / 10) ++ [digitChar (n % 10)]

/-- Decimal rendering of a natural number (Rust's `u32` `Display`). -/
def natRepr (n : Nat) : List Char := natReprAux (n + 1) n

/-- Decimal rendering of an integer (Rust's `i32`/`i64` `Display`). -/
def intRepr (z : Int) : List Char :=
  if z < 0 then '-' :: natRepr (-z).toNat else natRepr z.toNat

/-- `RollSettings::format_modifier`: empty for no modifier, `" + n"` for a
positive one and `" - (-n)"` otherwise. -/
def formatModifier (m : Option Int) : List Char :=
  match m with
  | none => []
  | some n => if n > 0 then " + ".data ++ natRepr n.toNat else " - ".data ++ natRepr (-n).toNat

/-- `RollSettings::format_parameters`: `"{number}d{sides}{modifier}"`. -/
def RollSettings.format_parameters (s : RollSettings) : List Char :=
  natRepr s.number ++ 'd' :: (natRepr s.sides ++ formatModifier s.modifier)

/-- Two's-complement wrap-around of `i64` arithmetic. -/
def wrap64 (z : Int) : Int :=
  (z + 9223372036854775808) % 18446744073709551616 - 9223372036854775808

/-- `Roll` of `src/dice.rs` (the `settings` back-reference is stored by
value). -/
structure Roll where
  rolls : List Nat
  total : Int
  settings : RollSettings
deriving DecidableEq, Repr

/-- `Roll::new`: draw `settings.number` samples (`draw i` models the `i`-th
value produced by the `Uniform::from(1..=sides)` sampler), sum them in `i64`
and add the modifier in `i64`. -/
def Roll.new (settings : RollSettings) (draw : Nat → Nat) : Roll :=
  let rolls := (List.range settings.number).map draw
  let base : Int := rolls.foldl (fun acc (x : Nat) => wrap64 (acc + (x : Int))) 0
  let total : Int :=
    match settings.modifier with
    | some m => wrap64 (base + m)
    | none => base
  ⟨rolls, total, settings⟩

/-- `RollType` of `src/dice.rs`. -/
inductive RollType where
  | Straight : RollType
  | Advantage : RollType
  | Disadvantage : RollType
deriving DecidableEq, Repr

/-- `Display` for `RollType`. -/
def RollType.display : RollType → List Char
  | .Straight => "Straight".data
  | .Advantage => "Advantage".data
  | .Disadvantage => "Disadvantage".data

/-- `RollResults` of `src/dice.rs`. -/
structure RollResults where
  roll_type : RollType
  try_one : Roll
  try_two : Option Roll
  settings : RollSettings
deriving DecidableEq, Repr

/-- `RollResults::new`: one roll always, a second one exactly for
`Advantage`/`Disadvantage`. -/
def RollResults.new (settings : RollSettings) (rt : RollType) (d1 d2 : Nat → Nat) : RollResults :=
  let try_one := Roll.new settings d1
  let try_two :=
    match rt with
    | .Straight => none
    | .Advantage => some (Roll.new settings d2)
    | .Disadvantage => some (Roll.new settings d2)
  ⟨rt, try_one, try_two, settings⟩

/-- `RollResults::result`.  `Roll` is ordered by `total` alone;
`std::cmp::max(a, b)` is `if b < a { a } else { b }` (second argument on a
tie) and `std::cmp::min(a, b)` is `if b < a { b } else { a }` (first argument
on a tie).  The `.expect("to be some")` on a missing `try_two` is `none`. -/
def RollResults.result (rr : RollResults) : Option Roll :=
  match rr.roll_type with
  | .Straight => some rr.try_one
  | .Advantage =>
    match rr.try_two with
    | none => none
    | some t2 => some (if t2.total < rr.try_one.total then rr.try_one else t2)
  | .Disadvantage =>
    match rr.try_two with
    | none => none
    | some t2 => some (if t2.total < rr.try_one.total then t2 else rr.try_one)

/-- `RollResults::results_index`: 1 when `try_one` wins strictly, else 2. -/
def RollResults.results_index (rr : RollResults) : Option Nat :=
  match rr.roll_type with
  | .Straight => some 1
  | .Advantage =>
    match rr.try_two with
    | none => none
    | some t2 => some (if t2.total < rr.try_one.total then 1 else 2)
  | .Disadvantage =>
    match rr.try_two with
    | none => none
    | some t2 => some (if rr.try_one.total < t2.total then 1 else 2)

/-- `Iterator::reduce` with `format!("{} + {}", a, b)`: `None` on an empty
list, hence the `.expect("to not be empty")` of `format_results`. -/
def joinPlus : List (List Char) → Option (List Char)
  | [] => none
  | x :: xs => some (xs.foldl (fun a b => a ++ " + ".data ++ b) x)

/-- `Roll::format_results`: the individual rolls joined by `" + "`. -/
def Roll.format_results (r : Roll) : Option (List Char) :=
  joinPlus (r.rolls.map natRepr)

/-- `Roll::format_roll`: the joined rolls, truncated to the budget plus a
`"..."` suffix when they exceed it, wrapped in parentheses and followed by the
modifier suffix.  (`String::truncate` counts bytes; every character here is
ASCII.) -/
def Roll.format_roll (r : Roll) (truncate : Option Nat) : Option (List Char) :=
  match r.format_results with
  | none => none
  | some results =>
    let res :=
      match truncate with
      | none => results
      | some t => if results.length > t then results.take t ++ "...".data else results
    some ('(' :: res ++ ')' :: formatModifier r.settings.modifier)

/-- `Display` for `Roll`: parameters line, roll line at the 4000-character
budget, final-total line. -/
def Roll.display (r : Roll) : Option (List Char) :=
  match r.format_roll (some 4000) with
  | none => none
  | some line =>
    some ("Parameters: ".data ++ r.settings.format_parameters ++
      '\n' :: "Roll: ".data ++ line ++
      '\n' :: "Your final roll is: 🎲 <b>".data ++ intRepr r.total ++ "</b> 🎲".data)

/-- `Display` for `RollResults`: the `Straight` arm delegates to the single
roll; the two-attempt arm renders each attempt at the 2000-character budget
and strikes the losing one through. -/
def RollResults.display (rr : RollResults) : Option (List Char) :=
  match rr.roll_type with
  | .Straight => rr.try_one.display
  | _ =>
    match rr.results_index, rr.try_two with
    | some idx, some t2 =>
      match rr.try_one.format_roll (some 2000), t2.format_roll (some 2000), rr.result with
      | some l1, some l2, some res =>
        let a1 := "Attempt one: ".data ++ l1
        let a1 := if idx = 2 then "<s>".data ++ a1 ++ "</s>".data else a1
        let a2 := "Attempt two: ".data ++ l2
        let a2 := if idx = 1 then "<s>".data ++ a2 ++ "</s>".data else a2
        some ("Parameters: ".data ++ rr.settings.format_parameters ++
          " with <u>".data ++ rr.roll_type.display ++ "</u>".data ++
          '\n' :: a1 ++ '\n' :: a2 ++
          '\n' :: "Your final roll is: 🎲 <b>".data ++ intRepr res.total ++ "</b> 🎲".data)
      | _, _, _ => none
    | _, _ => none

/-! ## Concrete sample values used by witnesses and counterexamples -/

/-- A two-dice spec used to build tied sessions. -/
def tieSettings : RollSettings := ⟨2, 4, none, none⟩

/-- First attempt samples 1 then 4 (total 5). -/
def tieDrawOne : Nat → Nat := fun i => if i = 0 then 1 else 4

/-- Second attempt samples 2 then 3 (total 5, different dice). -/
def tieDrawTwo : Nat → Nat := fun i => if i = 0 then 2 else 3

/-- An Advantage session whose two attempts tie at total 5. -/
def tieAdv : RollResults := RollResults.new tieSettings .Advantage tieDrawOne tieDrawTwo

/-- A Disadvantage session whose two attempts tie at total 5. -/
def tieDis : RollResults := RollResults.new tieSettings .Disadvantage tieDrawOne tieDrawTwo

/-- A small concrete roll (dice 1 and 2, joined text `"1 + 2"`). -/
def sampleRoll : Roll := Roll.new ⟨2, 6, none, none⟩ (fun i => if i = 0 then 1 else 2)

/-- A concrete validated spec `2d6+3`. -/
def sampleSpec : RollSettings := ⟨2, 6, some 3, none⟩

/-- A sampler that always draws 4. -/
def sampleDraw : Nat → Nat := fun _ => 4

/-! ## Arithmetic and list lemmas -/

theorem natReprAux_fuel (n : Nat) : ∀ f f', n < f → n < f' → natReprAux f n = natReprAux f' n := by
  induction n using Nat.strong_induction_on with
  | _ n ih =>
    intro f f' hf hf'
    cases f with
    | zero => omega
    | succ f =>
      cases f' with
      | zero => omega
      | succ f' =>
        simp only [natReprAux]
        by_cases h : n < 10
        · rw [if_pos h, if_pos h]
        · rw [if_neg h, if_neg h]
          have hdiv : n / 10 < n := Nat.div_lt_self (by omega) (by omega)
          rw [ih (n / 10) hdiv f f' (by omega) (by omega)]

theorem natRepr_unfold (n : Nat) :
    natRepr n = if n < 10 then [digitChar n] else natRepr (n / 10) ++ [digitChar (n % 10)] := by
  show natReprAux (n + 1) n = _
  simp only [natReprAux]
  by_cases h : n < 10
  · rw [if_pos h, if_pos h]
  · rw [if_neg h, if_neg h]
    have hdiv : n / 10 < n := Nat.div_lt_self (by omega) (by omega)
    rw [natReprAux_fuel (n / 10) n (n / 10 + 1) (by omega) (by omega)]
    rfl

theorem wrap64_eq_self (z : Int) (h1 : -9223372036854775808 ≤ z)
    (h2 : z < 9223372036854775808) : wrap64 z = z := by
  have hmod : (z + 9223372036854775808) % 18446744073709551616
      = z + 9223372036854775808 := Int.emod_eq_of_lt (by omega) (by omega)
  unfold wrap64
  omega

theorem castSum_nonneg (xs : List Nat) : 0 ≤ (xs.map fun x : Nat => (x : Int)).sum := by
  apply List.sum_nonneg
  intro x hx
  simp only [List.mem_map] at hx
  obtain ⟨y, _, rfl⟩ := hx
  exact Int.natCast_nonneg y

theorem castSum_le (xs : List Nat) (B : Nat) (h : ∀ x ∈ xs, x ≤ B) :
    (xs.map fun x : Nat => (x : Int)).sum ≤ xs.length * B := by
  induction xs with
  | nil => simp
  | cons x xs ih =>
    simp only [List.map_cons, List.sum_cons, List.length_cons]
    have hx : x ≤ B := h x (by simp)
    have := ih (fun y hy => h y (by simp [hy]))
    push_cast
    push_cast at this
    nlinarith

theorem foldl_wrap64 (xs : List Nat) (acc : Int) (h0 : 0 ≤ acc)
    (hsum : acc + (xs.map fun x : Nat => (x : Int)).sum < 9223372036854775808) :
    xs.foldl (fun acc (x : Nat) => wrap64 (acc + (x : Int))) acc
      = acc + (xs.map fun x : Nat => (x : Int)).sum := by
  induction xs generalizing acc with
  | nil => simp
  | cons x xs ih =>
    simp only [List.foldl_cons, List.map_cons, List.sum_cons] at *
    have hxs : 0 ≤ (xs.map fun x : Nat => (x : Int)).sum := castSum_nonneg xs
    have hx : (0 : Int) ≤ (x : Int) := Int.natCast_nonneg x
    rw [wrap64_eq_self (acc + (x : Int)) (by omega) (by omega)]
    rw [ih (acc + (x : Int)) (by omega) (by omega)]
    ring

theorem roll_new_total (s : RollSettings) (draw : Nat → Nat)
    (hn : s.number ≤ 9999) (hs : s.sides ≤ 9999)
    (hm : ∀ m, s.modifier = some m → m.natAbs ≤ 9999)
    (hd : ∀ i, draw i ≤ s.sides) :
    (Roll.new s draw).total
      = ((Roll.new s draw).rolls.map fun x : Nat => (x : Int)).sum + s.modifier.getD 0 := by
  set xs := (List.range s.number).map draw with hxs
  have hlen : xs.length = s.number := by simp [hxs]
  have hbound : ∀ x ∈ xs, x ≤ s.sides := by
    intro x hx
    simp only [hxs, List.mem_map] at hx
    obtain ⟨i, _, rfl⟩ := hx
    exact hd i
  have hsumle : (xs.map fun x : Nat => (x : Int)).sum ≤ 9999 * 9999 := by
    have h1 := castSum_le xs s.sides hbound
    have h2 : (xs.length : Int) * s.sides ≤ 9999 * 9999 := by
      have h3 : (xs.length : Int) ≤ 9999 := by rw [hlen]; exact_mod_cast hn
      have hs' : (s.sides : Int) ≤ 9999 := by exact_mod_cast hs
      have h4 := Int.natCast_nonneg s.sides
      have h5 := Int.natCast_nonneg xs.length
      nlinarith
    omega
  have hsumnn := castSum_nonneg xs
  have hbase : xs.foldl (fun acc (x : Nat) => wrap64 (acc + (x : Int))) 0
      = (xs.map fun x : Nat => (x : Int)).sum := by
    have := foldl_wrap64 xs 0 le_rfl (by omega)
    omega
  show (match s.modifier with
      | some m => wrap64 ((xs.foldl (fun acc (x : Nat) => wrap64 (acc + (x : Int))) 0) + m)
      | none => xs.foldl (fun acc (x : Nat) => wrap64 (acc + (x : Int))) 0)
    = ((xs.map fun x : Nat => (x : Int)).sum + s.modifier.getD 0)
  cases hmod : s.modifier with
  | none => simp [hbase]
  | some m =>
    have hmb : m.natAbs ≤ 9999 := hm m hmod
    show wrap64 ((xs.foldl (fun acc (x : Nat) => wrap64 (acc + (x : Int))) 0) + m)
        = (xs.map fun x : Nat => (x : Int)).sum + (some m).getD 0
    rw [hbase, wrap64_eq_self _ (by omega) (by omega)]
    simp

theorem joinPlus_isSome (xs : List (List Char)) (h : xs ≠ []) : (joinPlus xs).isSome := by
  cases xs with
  | nil => exact absurd rfl h
  | cons a as => simp [joinPlus]

theorem format_results_isSome (s : RollSettings) (d : Nat → Nat) (hn : 1 ≤ s.number) :
    (Roll.new s d).format_results.isSome := by
  apply joinPlus_isSome
  simp only [Roll.new, List.map_eq_nil_iff, ne_eq]
  simp [List.range_eq_nil]
  omega

theorem format_roll_truncate (r : Roll) (j : List Char) (hj : r.format_results = some j)
    (t : Nat) (ht : t < j.length) :
    r.format_roll (some t)
      = some ('(' :: (j.take t ++ "...".data) ++ ')' :: formatModifier r.settings.modifier) := by
  simp only [Roll.format_roll, hj]
  rw [if_pos (show j.length > t from ht)]

theorem format_roll_no_truncate (r : Roll) (j : List Char) (hj : r.format_results = some j)
    (t : Nat) (ht : j.length ≤ t) :
    r.format_roll (some t) = some ('(' :: j ++ ')' :: formatModifier r.settings.modifier) := by
  simp only [Roll.format_roll, hj]
  rw [if_neg (by omega)]

theorem format_roll_isSome (r : Roll) (h : r.format_results.isSome) (t : Option Nat) :
    (r.format_roll t).isSome := by
  obtain ⟨j, hj⟩ := Option.isSome_iff_exists.mp h
  cases t with
  | none => simp [Roll.format_roll, hj]
  | some tr => simp [Roll.format_roll, hj]

theorem roll_display_isSome (r : Roll) (h : r.format_results.isSome) : r.display.isSome := by
  obtain ⟨l, hl⟩ := Option.isSome_iff_exists.mp (format_roll_isSome r h (some 4000))
  simp [Roll.display, hl]

/-! ## Parser lemmas -/

theorem digitVal_lt (c : Char) (h : c ∈ digitChars) : digitVal c < 10 := by
  have hd : digitChars = ['0', '1', '2', '3', '4', '5', '6', '7', '8', '9'] := rfl
  rw [hd] at h
  fin_cases h <;> decide

theorem digit_not_ws (c : Char) (h : c ∈ digitChars) : isWS c = false := by
  have hd : digitChars = ['0', '1', '2', '3', '4', '5', '6', '7', '8', '9'] := rfl
  rw [hd] at h
  fin_cases h <;> decide

theorem natOfDigits_aux_lt (ds : List Char) : ∀ a : Nat, (∀ c ∈ ds, digitVal c < 10) →
    ds.foldl (fun a c => 10 * a + digitVal c) a < (a + 1) * 10 ^ ds.length := by
  induction ds with
  | nil => intro a _; simp
  | cons c ds ih =>
    intro a h
    simp only [List.foldl_cons, List.length_cons]
    have hc : digitVal c < 10 := h c (by simp)
    have hrec := ih (10 * a + digitVal c) (fun x hx => h x (by simp [hx]))
    have hpow : (0:Nat) < 10 ^ ds.length := Nat.pos_pow_of_pos _ (by omega)
    calc ds.foldl (fun a c => 10 * a + digitVal c) (10 * a + digitVal c)
        < (10 * a + digitVal c + 1) * 10 ^ ds.length := hrec
      _ ≤ ((a + 1) * 10) * 10 ^ ds.length := by nlinarith
      _ = (a + 1) * 10 ^ (ds.length + 1) := by ring

theorem natOfDigits_lt (ds : List Char) (h : ∀ c ∈ ds, digitVal c < 10) :
    natOfDigits ds < 10 ^ ds.length := by
  have := natOfDigits_aux_lt ds 0 h
  simpa [natOfDigits] using this

theorem singleDecimal_cases (s : List Char) :
    (∃ c t, dropWS s = c :: t ∧ c ∈ digitChars ∧ singleDecimal s = .ok (dropWS t) c) ∨
    ((dropWS s = [] ∨ ∃ c t, dropWS s = c :: t ∧ c ∉ digitChars) ∧
      ∃ e, singleDecimal s = .fail e) := by
  cases hs : dropWS s with
  | nil =>
    right
    exact ⟨Or.inl rfl, [], by simp [singleDecimal, wsP, oneOf, hs]⟩
  | cons c t =>
    by_cases hc : c ∈ digitChars
    · left
      exact ⟨c, t, rfl, hc, by simp [singleDecimal, wsP, oneOf, hs, hc]⟩
    · right
      exact ⟨Or.inr ⟨c, t, rfl, hc⟩, c :: t, by simp [singleDecimal, wsP, oneOf, hs, hc]⟩

theorem singleDecimal_ok_digit (s r : List Char) (c : Char)
    (h : singleDecimal s = .ok r c) : c ∈ digitChars := by
  rcases singleDecimal_cases s with ⟨c', t, -, hc', hok⟩ | ⟨-, e, hfail⟩
  · rw [h] at hok
    simp only [PRes.ok.injEq] at hok
    rw [hok.2]
    exact hc'
  · rw [h] at hfail
    simp at hfail

theorem singleDecimal_no_panic (s : List Char) : singleDecimal s ≠ .panic := by
  rcases singleDecimal_cases s with ⟨c', t, -, -, hok⟩ | ⟨-, e, hfail⟩
  · rw [hok]; simp
  · rw [hfail]; simp

theorem manyMNgo_sd_no_panic : ∀ (mx mn : Nat) (s : List Char),
    manyMNgo singleDecimal mn mx s ≠ .panic := by
  intro mx
  induction mx with
  | zero => intro mn s; simp [manyMNgo]
  | succ mx ih =>
    intro mn s
    simp only [manyMNgo]
    cases hsd : singleDecimal s with
    | panic => exact absurd hsd (singleDecimal_no_panic s)
    | fail e =>
      dsimp only
      split <;> simp
    | ok r v =>
      dsimp only
      cases hgo : manyMNgo singleDecimal (mn - 1) mx r with
      | ok r2 vs => simp
      | fail e => simp
      | panic => exact absurd hgo (ih (mn - 1) r)

theorem manyMNgo_sd_ok : ∀ (mx mn : Nat) (s r cs : List Char),
    manyMNgo singleDecimal mn mx s = .ok r cs →
    cs.length ≤ mx ∧ ∀ c ∈ cs, c ∈ digitChars := by
  intro mx
  induction mx with
  | zero =>
    intro mn s r cs h
    simp only [manyMNgo, PRes.ok.injEq] at h
    rw [← h.2]
    simp
  | succ mx ih =>
    intro mn s r cs h
    simp only [manyMNgo] at h
    cases hsd : singleDecimal s with
    | panic => rw [hsd] at h; simp at h
    | fail e =>
      rw [hsd] at h
      dsimp only at h
      split at h
      · simp only [PRes.ok.injEq] at h
        rw [← h.2]
        simp
      · simp at h
    | ok r1 v =>
      rw [hsd] at h
      dsimp only at h
      cases hgo : manyMNgo singleDecimal (mn - 1) mx r1 with
      | panic => exact absurd hgo (manyMNgo_sd_no_panic mx (mn - 1) r1)
      | fail e => rw [hgo] at h; simp at h
      | ok r2 vs =>
        rw [hgo] at h
        simp only [PRes.ok.injEq] at h
        obtain ⟨ihl, ihd⟩ := ih (mn - 1) r1 r2 vs hgo
        rw [← h.2]
        refine ⟨by simp; omega, ?_⟩
        intro c hc
        rcases List.mem_cons.mp hc with rfl | hmem
        · exact singleDecimal_ok_digit s r1 c hsd
        · exact ihd c hmem

theorem decimal_ok_le (mn : Nat) (s r : List Char) (v : Nat)
    (h : decimal mn 4 s = .ok r v) : v ≤ 9999 := by
  unfold decimal at h
  cases hgo : manyMNgo singleDecimal mn 4 s with
  | panic => rw [hgo] at h; simp at h
  | fail e => rw [hgo] at h; simp at h
  | ok r1 cs =>
    rw [hgo] at h
    obtain ⟨hlen, hdig⟩ := manyMNgo_sd_ok 4 mn s r1 cs hgo
    have hv : natOfDigits cs < 10 ^ cs.length :=
      natOfDigits_lt cs (fun c hc => digitVal_lt c (hdig c hc))
    have h4 : (10 : Nat) ^ cs.length ≤ 10 ^ 4 := Nat.pow_le_pow_right (by omega) hlen
    dsimp only at h
    split at h
    · simp only [PRes.ok.injEq] at h
      omega
    · simp at h

theorem decimal_no_panic (mn : Nat) (s : List Char) : decimal mn 4 s ≠ .panic := by
  unfold decimal
  cases hgo : manyMNgo singleDecimal mn 4 s with
  | panic => exact absurd hgo (manyMNgo_sd_no_panic 4 mn s)
  | fail e => simp
  | ok r1 cs =>
    obtain ⟨hlen, hdig⟩ := manyMNgo_sd_ok 4 mn s r1 cs hgo
    have hv : natOfDigits cs < 10 ^ cs.length :=
      natOfDigits_lt cs (fun c hc => digitVal_lt c (hdig c hc))
    have h4 : (10 : Nat) ^ cs.length ≤ 10 ^ 4 := Nat.pow_le_pow_right (by omega) hlen
    dsimp only
    rw [if_pos (by omega)]
    simp

theorem oneOf_no_panic (k s : List Char) : oneOf k s ≠ .panic := by
  unfold oneOf
  cases s with
  | nil => simp
  | cons c t =>
    dsimp only
    split <;> simp

theorem wsOneOf_no_panic (k : List Char) (s : List Char) : wsP (oneOf k) s ≠ .panic := by
  unfold wsP
  cases ho : oneOf k (dropWS s) with
  | panic => exact absurd ho (oneOf_no_panic k (dropWS s))
  | fail e => simp
  | ok r v => simp

theorem parseRollInner_no_panic (s : List Char) : parseRollInner s ≠ .panic := by
  unfold parseRollInner
  cases h1 : decimal 1 4 s with
  | panic => exact absurd h1 (decimal_no_panic 1 s)
  | fail e => simp
  | ok r1 number =>
    dsimp only
    cases h2 : diceSeparator r1 with
    | panic => exact absurd h2 (wsOneOf_no_panic ['d', 'D'] r1)
    | fail e => simp
    | ok r2 sep =>
      dsimp only
      cases h3 : decimal 1 4 r2 with
      | panic => exact absurd h3 (decimal_no_panic 1 r2)
      | fail e => simp
      | ok r3 sides =>
        dsimp only
        cases h4 : modifierSeparator r3 with
        | panic => exact absurd h4 (wsOneOf_no_panic ['+', '-'] r3)
        | fail e => simp
        | ok r4 sign =>
          dsimp only
          cases h5 : decimal 1 4 r4 with
          | panic => exact absurd h5 (decimal_no_panic 1 r4)
          | fail e => simp
          | ok r5 mag =>
            dsimp only
            have hmag : mag ≤ 9999 := decimal_ok_le 1 r4 r5 mag h5
            rw [if_pos ?_]
            · simp
            · constructor <;> split <;> omega

theorem parseRoll_isSome (input : List Char) : (parseRoll input).isSome := by
  unfold parseRoll
  cases hi : parseRollInner input with
  | panic => exact absurd hi (parseRollInner_no_panic input)
  | fail e => simp
  | ok rem res =>
    dsimp only
    by_cases hz : res.number = 0 ∨ res.sides = 0
    · simp [hz]
    · by_cases hb : many1DigitOk rem = true
      · simp [hz, hb]
      · by_cases ht : trim rem = []
        · simp [hz, hb, ht]
        · simp [hz, hb, ht]

theorem parseRoll_ok_shape (input : List Char) (r : RollSettings)
    (h : parseRoll input = some (.ok r)) :
    ∃ rem res, parseRollInner input = .ok rem res ∧
      ¬(res.number = 0 ∨ res.sides = 0) ∧ many1DigitOk rem = false ∧
      ((trim rem = [] ∧ r = res) ∨
        (trim rem ≠ [] ∧ r = { res with label := some (trim rem) })) := by
  unfold parseRoll at h
  cases hi : parseRollInner input with
  | panic => rw [hi] at h; simp at h
  | fail e => rw [hi] at h; simp at h
  | ok rem res =>
    rw [hi] at h
    dsimp only at h
    by_cases hz : res.number = 0 ∨ res.sides = 0
    · simp [hz] at h
    · by_cases hb : many1DigitOk rem = true
      · simp [hz, hb] at h
      · by_cases ht : trim rem = []
        · simp only [if_neg hz, hb, Bool.false_eq_true, if_false, if_pos ht,
            Option.some.injEq, Except.ok.injEq] at h
          exact ⟨rem, res, rfl, hz, by simpa using hb, Or.inl ⟨ht, h.symm⟩⟩
        · simp only [if_neg hz, hb, Bool.false_eq_true, if_false, if_neg ht,
            Option.some.injEq, Except.ok.injEq] at h
          exact ⟨rem, res, rfl, hz, by simpa using hb, Or.inr ⟨ht, h.symm⟩⟩

theorem parseRollInner_label_none (s rem : List Char) (res : RollSettings)
    (h : parseRollInner s = .ok rem res) : res.label = none := by
  unfold parseRollInner at h
  cases h1 : decimal 1 4 s <;> rw [h1] at h <;> dsimp only at h
  case panic => simp at h
  case fail => simp at h
  case ok r1 number =>
  cases h2 : diceSeparator r1 <;> rw [h2] at h <;> dsimp only at h
  case panic => simp at h
  case fail => simp at h
  case ok r2 sep =>
  cases h3 : decimal 1 4 r2 <;> rw [h3] at h <;> dsimp only at h
  case panic => simp at h
  case fail => simp at h
  case ok r3 sides =>
  cases h4 : modifierSeparator r3 <;> rw [h4] at h <;> dsimp only at h
  case panic => simp at h
  case fail =>
    simp only [PRes.ok.injEq] at h
    rw [← h.2]
  case ok r4 sign =>
  cases h5 : decimal 1 4 r4 <;> rw [h5] at h <;> dsimp only at h
  case panic => simp at h
  case fail =>
    simp only [PRes.ok.injEq] at h
    rw [← h.2]
  case ok r5 mag =>
  split at h
  all_goals try split at h
  all_goals first
    | (simp only [PRes.ok.injEq] at h
       rw [← h.2])
    | simp at h

theorem parseRoll_zero_payload (input s' : List Char)
    (h : parseRoll input = some (.error (.CannotBeZero s'))) : s' = input := by
  unfold parseRoll at h
  cases hi : parseRollInner input with
  | panic => rw [hi] at h; simp at h
  | fail e => rw [hi] at h; simp [nomMessage] at h
  | ok rem res =>
    rw [hi] at h
    dsimp only at h
    by_cases hz : res.number = 0 ∨ res.sides = 0
    · simp [hz] at h
      exact h.symm
    · by_cases hb : many1DigitOk rem = true
      · simp [hz, hb] at h
      · by_cases ht : trim rem = []
        · simp [hz, hb, ht] at h
        · simp [hz, hb, ht] at h

theorem parseRoll_error_payload (input m : List Char)
    (h : parseRoll input = some (.error (.ParseError m))) :
    ∃ rest, m = "error OneOf at: ".data ++ rest := by
  unfold parseRoll at h
  cases hi : parseRollInner input with
  | panic => rw [hi] at h; simp at h
  | fail e =>
    rw [hi] at h
    simp only [Option.some.injEq, Except.error.injEq, ParseRollError.ParseError.injEq] at h
    exact ⟨e, h.symm⟩
  | ok rem res =>
    rw [hi] at h
    dsimp only at h
    by_cases hz : res.number = 0 ∨ res.sides = 0
    · simp [hz] at h
    · by_cases hb : many1DigitOk rem = true
      · simp [hz, hb] at h
      · by_cases ht : trim rem = []
        · simp [hz, hb, ht] at h
        · simp [hz, hb, ht] at h

theorem many1DigitOk_false (rem : List Char) (h : many1DigitOk rem = false) :
    dropWS rem = [] ∨ ∃ c t, dropWS rem = c :: t ∧ c ∉ digitChars := by
  rcases singleDecimal_cases rem with ⟨c, t, hdrop, hc, hok⟩ | ⟨hcase, e, hfail⟩
  · exfalso
    unfold many1DigitOk at h
    rw [hok] at h
    simp at h
  · exact hcase

theorem dropWSEnd_prefix (xs : List Char) : ∃ t, xs = dropWSEnd xs ++ t := by
  refine ⟨(xs.reverse.takeWhile isRustWS).reverse, ?_⟩
  unfold dropWSEnd
  conv_lhs => rw [← List.reverse_reverse xs,
    ← List.takeWhile_append_dropWhile isRustWS xs.reverse, List.reverse_append]

theorem dropWhile_head_false (p : Char → Bool) (s : List Char) (c : Char) (t : List Char)
    (h : s.dropWhile p = c :: t) : p c = false := by
  induction s with
  | nil => simp at h
  | cons a s ih =>
    by_cases ha : p a
    · rw [show (a :: s).dropWhile p = s.dropWhile p by simp [List.dropWhile_cons, ha]] at h
      exact ih h
    · rw [show (a :: s).dropWhile p = a :: s by simp [List.dropWhile_cons, ha]] at h
      cases h
      simpa using ha

theorem dropWS_head (s : List Char) (c : Char) (t : List Char) (h : dropWS s = c :: t) :
    isWS c = false :=
  dropWhile_head_false isWS s c t h

theorem dropWhile_idem (p : Char → Bool) (l : List Char) :
    (l.dropWhile p).dropWhile p = l.dropWhile p := by
  induction l with
  | nil => rfl
  | cons a l ih =>
    by_cases h : p a
    · simp [List.dropWhile_cons, h, ih]
    · simp [List.dropWhile_cons, h]

theorem dropWSEnd_idem (xs : List Char) : dropWSEnd (dropWSEnd xs) = dropWSEnd xs := by
  unfold dropWSEnd
  rw [List.reverse_reverse, dropWhile_idem]

theorem trim_trim (s : List Char) : trim (trim s) = trim s := by
  have hws : dropRustWS (trim s) = trim s := by
    cases htr : trim s with
    | nil => rfl
    | cons c l =>
      obtain ⟨t, ht⟩ := dropWSEnd_prefix (dropRustWS s)
      have hdrop : dropRustWS s = c :: (l ++ t) := by
        rw [ht, show dropWSEnd (dropRustWS s) = trim s from rfl, htr]
        simp
      have hc : isRustWS c = false := dropWhile_head_false isRustWS s c (l ++ t) hdrop
      show (c :: l).dropWhile isRustWS = c :: l
      simp [List.dropWhile_cons, hc]
  show dropWSEnd (dropRustWS (trim s)) = trim s
  rw [hws]
  show dropWSEnd (dropWSEnd (dropRustWS s)) = trim s
  rw [dropWSEnd_idem]
  rfl

/-! ## Decimal rendering lemmas -/

theorem natRepr_ne_nil (n : Nat) : natRepr n ≠ [] := by
  rw [natRepr_unfold]
  split <;> simp

theorem digitChar_mem (n : Nat) : digitChar n ∈ digitChars := by
  unfold digitChar
  split <;> decide

theorem natRepr_digits (n : Nat) : ∀ c ∈ natRepr n, c ∈ digitChars := by
  induction n using Nat.strong_induction_on with
  | _ n ih =>
    by_cases h : n < 10
    · rw [natRepr_unfold, if_pos h]
      intro c hc
      simp only [List.mem_singleton] at hc
      subst hc
      exact digitChar_mem n
    · rw [natRepr_unfold, if_neg h]
      intro c hc
      rcases List.mem_append.mp hc with h1 | h2
      · exact ih (n / 10) (Nat.div_lt_self (by omega) (by omega)) c h1
      · simp only [List.mem_singleton] at h2
        subst h2
        exact digitChar_mem _

theorem natRepr_len_le : ∀ (k n : Nat), 1 ≤ k → n < 10 ^ k → (natRepr n).length ≤ k := by
  intro k
  induction k with
  | zero => intro n h1 _; omega
  | succ k ih =>
    intro n _ h2
    by_cases h : n < 10
    · rw [natRepr_unfold, if_pos h]
      simp
    · rw [natRepr_unfold, if_neg h]
      have hk : 1 ≤ k := by
        rcases Nat.eq_zero_or_pos k with rfl | hp
        · simp at h2
          omega
        · exact hp
      have hdiv : n / 10 < 10 ^ k := by
        rw [Nat.div_lt_iff_lt_mul (by omega)]
        calc n < 10 ^ (k + 1) := h2
          _ = 10 ^ k * 10 := by ring
      have := ih (n / 10) hk hdiv
      rw [List.length_append]
      simp only [List.length_singleton]
      omega

theorem digitVal_digitChar (n : Nat) (h : n < 10) : digitVal (digitChar n) = n := by
  interval_cases n <;> decide

theorem natOfDigits_snoc (ds : List Char) (c : Char) :
    natOfDigits (ds ++ [c]) = 10 * natOfDigits ds + digitVal c := by
  unfold natOfDigits
  rw [List.foldl_append]
  simp

theorem natOfDigits_natRepr (n : Nat) : natOfDigits (natRepr n) = n := by
  induction n using Nat.strong_induction_on with
  | _ n ih =>
    by_cases h : n < 10
    · rw [natRepr_unfold, if_pos h]
      simp [natOfDigits, digitVal_digitChar n h]
    · rw [natRepr_unfold, if_neg h]
      rw [natOfDigits_snoc, ih (n / 10) (Nat.div_lt_self (by omega) (by omega)),
        digitVal_digitChar _ (Nat.mod_lt _ (by omega))]
      omega

/-! ## Symbolic parser-run lemmas -/

theorem dropWS_idem (s : List Char) : dropWS (dropWS s) = dropWS s :=
  dropWhile_idem isWS s

theorem dropWS_cons_of_not_ws (c : Char) (t : List Char) (h : isWS c = false) :
    dropWS (c :: t) = c :: t := by
  simp [dropWS, List.dropWhile_cons, h]

theorem noLeadingDigit_dropWS (s : List Char) (h : noLeadingDigit s) :
    noLeadingDigit (dropWS s) := by
  unfold noLeadingDigit at *
  rw [dropWS_idem]
  exact h

theorem singleDecimal_digit (c : Char) (t : List Char) (hc : c ∈ digitChars) :
    singleDecimal (c :: t) = .ok (dropWS t) c := by
  have hws := digit_not_ws c hc
  simp [singleDecimal, wsP, oneOf, dropWS_cons_of_not_ws c t hws, hc]

theorem singleDecimal_fail_of (s : List Char) (h : noLeadingDigit s) :
    ∃ e, singleDecimal s = .fail e := by
  rcases singleDecimal_cases s with ⟨c, t, hdrop, hc, hok⟩ | ⟨-, e, hfail⟩
  · rcases h with hnil | ⟨c', t', hdrop', hnd⟩
    · rw [hnil] at hdrop
      simp at hdrop
    · rw [hdrop'] at hdrop
      simp only [List.cons.injEq] at hdrop
      obtain ⟨rfl, rfl⟩ := hdrop
      exact absurd hc hnd
  · exact ⟨e, hfail⟩

theorem natRepr_head_shape (v : Nat) :
    ∃ c t, natRepr v = c :: t ∧ c ∈ digitChars := by
  cases h : natRepr v with
  | nil => exact absurd h (natRepr_ne_nil v)
  | cons c t => exact ⟨c, t, rfl, natRepr_digits v c (by rw [h]; simp)⟩

theorem manySD_run (ds : List Char) : ∀ (rest : List Char) (mn mx : Nat),
    ds ≠ [] → (∀ c ∈ ds, c ∈ digitChars) → ds.length ≤ mx → mn ≤ ds.length →
    noLeadingDigit rest →
    manyMNgo singleDecimal mn mx (ds ++ rest) = .ok (dropWS rest) ds := by
  induction ds with
  | nil => intro rest mn mx h; exact absurd rfl h
  | cons d ds ih =>
    intro rest mn mx hne hdig hlen hmn hrest
    have hd : d ∈ digitChars := hdig d (by simp)
    cases mx with
    | zero => simp at hlen
    | succ mx =>
      simp only [manyMNgo]
      cases ds with
      | nil =>
        rw [List.singleton_append, singleDecimal_digit d rest hd]
        dsimp only
        cases mx with
        | zero => simp [manyMNgo]
        | succ mx2 =>
          obtain ⟨e, hfail⟩ := singleDecimal_fail_of (dropWS rest) (noLeadingDigit_dropWS rest hrest)
          simp only [manyMNgo]
          rw [hfail]
          dsimp only
          rw [if_pos (by simp at hmn; omega)]
      | cons d2 ds2 =>
        have h2 : d2 ∈ digitChars := hdig d2 (by simp)
        rw [List.cons_append, singleDecimal_digit d _ hd, List.cons_append,
          dropWS_cons_of_not_ws d2 _ (digit_not_ws d2 h2)]
        dsimp only
        rw [← List.cons_append d2 ds2 rest,
          ih rest (mn - 1) mx (by simp) (fun c hc => hdig c (by simp [hc]))
            (by simp at hlen ⊢; omega) (by simp at hmn ⊢; omega) hrest]

theorem decimal_repr_run (v : Nat) (rest : List Char) (hv : v ≤ 9999)
    (hrest : noLeadingDigit rest) :
    decimal 1 4 (natRepr v ++ rest) = .ok (dropWS rest) v := by
  unfold decimal
  rw [manySD_run (natRepr v) rest 1 4 (natRepr_ne_nil v) (natRepr_digits v)
    (natRepr_len_le 4 v (by omega) (by omega))
    (by obtain ⟨c, t, hct, hc⟩ := natRepr_head_shape v
        rw [hct]
        simp)
    hrest]
  dsimp only
  have hlt : natOfDigits (natRepr v) < 10 ^ (natRepr v).length :=
    natOfDigits_lt (natRepr v) (fun c hc => digitVal_lt c (natRepr_digits v c hc))
  have hle : (10 : Nat) ^ (natRepr v).length ≤ 10 ^ 4 :=
    Nat.pow_le_pow_right (by omega) (natRepr_len_le 4 v (by omega) (by omega))
  rw [if_pos (by omega), natOfDigits_natRepr]

theorem wsOneOf_run (k : List Char) (c : Char) (t : List Char) (hc : c ∈ k)
    (hws : isWS c = false) : wsP (oneOf k) (c :: t) = .ok (dropWS t) c := by
  simp [wsP, oneOf, dropWS_cons_of_not_ws c t hws, hc]

theorem wsOneOf_fail (k s : List Char)
    (h : dropWS s = [] ∨ ∃ c t, dropWS s = c :: t ∧ c ∉ k) :
    ∃ e, wsP (oneOf k) s = .fail e := by
  rcases h with hnil | ⟨c, t, hdrop, hc⟩
  · exact ⟨[], by simp [wsP, oneOf, hnil]⟩
  · exact ⟨c :: t, by simp [wsP, oneOf, hdrop, hc]⟩

theorem dropWS_natRepr_append (v : Nat) (rest : List Char) :
    dropWS (natRepr v ++ rest) = natRepr v ++ rest := by
  obtain ⟨c, t, hct, hc⟩ := natRepr_head_shape v
  rw [hct, List.cons_append, dropWS_cons_of_not_ws c _ (digit_not_ws c hc)]

theorem diceSeparator_run (c : Char) (t : List Char) (hc : c ∈ (['d', 'D'] : List Char))
    (hws : isWS c = false) : diceSeparator (c :: t) = .ok (dropWS t) c :=
  wsOneOf_run ['d', 'D'] c t hc hws

theorem modifierSeparator_run (c : Char) (t : List Char) (hc : c ∈ (['+', '-'] : List Char))
    (hws : isWS c = false) : modifierSeparator (c :: t) = .ok (dropWS t) c :=
  wsOneOf_run ['+', '-'] c t hc hws

theorem modifierSeparator_fail (s : List Char)
    (h : dropWS s = [] ∨ ∃ c t, dropWS s = c :: t ∧ c ∉ (['+', '-'] : List Char)) :
    ∃ e, modifierSeparator s = .fail e :=
  wsOneOf_fail ['+', '-'] s h

theorem dropWS_ws_cons (t : List Char) : dropWS (' ' :: t) = dropWS t := by
  simp [dropWS, List.dropWhile_cons, show isWS ' ' = true from by decide]

theorem dropWS_natRepr (v : Nat) : dropWS (natRepr v) = natRepr v := by
  obtain ⟨c, t, hct, hc⟩ := natRepr_head_shape v
  rw [hct, dropWS_cons_of_not_ws c t (digit_not_ws c hc)]

theorem decimal_repr_run_nil (v : Nat) (hv : v ≤ 9999) :
    decimal 1 4 (natRepr v) = .ok [] v := by
  have h := decimal_repr_run v [] hv (Or.inl rfl)
  simpa [dropWS] using h

theorem parseRollInner_format_none (n m : Nat) (hn : n ≤ 9999) (hm : m ≤ 9999) :
    parseRollInner (natRepr n ++ 'd' :: (natRepr m ++ [])) = .ok [] ⟨n, m, none, none⟩ := by
  unfold parseRollInner
  have hnold : noLeadingDigit ('d' :: (natRepr m ++ [])) :=
    Or.inr ⟨'d', natRepr m ++ [], dropWS_cons_of_not_ws 'd' _ (by decide), by decide⟩
  rw [decimal_repr_run n ('d' :: (natRepr m ++ [])) hn hnold,
    dropWS_cons_of_not_ws 'd' _ (by decide)]
  dsimp only
  rw [diceSeparator_run 'd' (natRepr m ++ []) (by decide) (by decide),
    dropWS_natRepr_append m []]
  dsimp only
  rw [List.append_nil, decimal_repr_run_nil m hm]
  dsimp only
  obtain ⟨e, hf⟩ := modifierSeparator_fail [] (Or.inl rfl)
  rw [hf]

theorem parseRollInner_format_mod (n m : Nat) (sgn : Char) (mag : Nat)
    (hn : n ≤ 9999) (hm : m ≤ 9999) (hmag : mag ≤ 9999)
    (hsgn : sgn ∈ (['+', '-'] : List Char)) :
    parseRollInner (natRepr n ++ 'd' :: (natRepr m ++ (' ' :: sgn :: ' ' :: natRepr mag)))
      = .ok [] ⟨n, m, some (if sgn = '-' then -(mag : Int) else (mag : Int)), none⟩ := by
  have hws_sgn : isWS sgn = false := by fin_cases hsgn <;> decide
  have hnd_sgn : sgn ∉ digitChars := by fin_cases hsgn <;> decide
  have hdtail : dropWS (' ' :: sgn :: ' ' :: natRepr mag) = sgn :: ' ' :: natRepr mag := by
    rw [dropWS_ws_cons, dropWS_cons_of_not_ws sgn _ hws_sgn]
  unfold parseRollInner
  have hnold : noLeadingDigit ('d' :: (natRepr m ++ (' ' :: sgn :: ' ' :: natRepr mag))) :=
    Or.inr ⟨'d', _, dropWS_cons_of_not_ws 'd' _ (by decide), by decide⟩
  rw [decimal_repr_run n _ hn hnold, dropWS_cons_of_not_ws 'd' _ (by decide)]
  dsimp only
  rw [diceSeparator_run 'd' _ (by decide) (by decide), dropWS_natRepr_append m _]
  dsimp only
  rw [decimal_repr_run m (' ' :: sgn :: ' ' :: natRepr mag) hm
      (Or.inr ⟨sgn, ' ' :: natRepr mag, hdtail, hnd_sgn⟩), hdtail]
  dsimp only
  rw [modifierSeparator_run sgn (' ' :: natRepr mag) hsgn hws_sgn,
    dropWS_ws_cons, dropWS_natRepr mag]
  dsimp only
  rw [decimal_repr_run_nil mag hmag]
  dsimp only
  rw [if_pos (by constructor <;> split <;> omega)]

theorem parseRoll_of_inner_empty (input : List Char) (res : RollSettings)
    (hi : parseRollInner input = .ok [] res) (hn : res.number ≠ 0) (hs : res.sides ≠ 0) :
    parseRoll input = some (.ok res) := by
  unfold parseRoll
  rw [hi]
  dsimp only
  rw [if_neg (by rintro (h0 | h0); exact hn h0; exact hs h0),
    show many1DigitOk [] = false by decide]
  simp [show trim [] = [] by decide]

/-! ## Overflowing-digit-run lemmas -/

theorem manySD_run_exact (ds : List Char) : ∀ (rest : List Char) (mn mx : Nat),
    ds ≠ [] → (∀ c ∈ ds, c ∈ digitChars) → mx = ds.length → mn ≤ ds.length →
    manyMNgo singleDecimal mn mx (ds ++ rest) = .ok (dropWS rest) ds := by
  induction ds with
  | nil => intro rest mn mx h; exact absurd rfl h
  | cons d ds ih =>
    intro rest mn mx hne hdig hmx hmn
    have hd : d ∈ digitChars := hdig d (by simp)
    cases mx with
    | zero => simp at hmx
    | succ mx =>
      have hmx2 : mx = ds.length := by simp at hmx; omega
      simp only [manyMNgo]
      cases ds with
      | nil =>
        rw [List.singleton_append, singleDecimal_digit d rest hd]
        dsimp only
        have hmx0 : mx = 0 := by simpa using hmx2
        subst hmx0
        simp [manyMNgo]
      | cons d2 ds2 =>
        have h2 : d2 ∈ digitChars := hdig d2 (by simp)
        rw [List.cons_append, singleDecimal_digit d _ hd, List.cons_append,
          dropWS_cons_of_not_ws d2 _ (digit_not_ws d2 h2)]
        dsimp only
        rw [← List.cons_append d2 ds2 rest,
          ih rest (mn - 1) mx (by simp) (fun c hc => hdig c (by simp [hc])) hmx2
            (by simp at hmn ⊢; omega)]

theorem decimal_run_any (ds rest : List Char) (hne : ds ≠ [])
    (hdig : ∀ c ∈ ds, c ∈ digitChars) (hlen : ds.length ≤ 4)
    (hrest : noLeadingDigit rest) :
    decimal 1 4 (ds ++ rest) = .ok (dropWS rest) (natOfDigits ds) := by
  unfold decimal
  rw [manySD_run ds rest 1 4 hne hdig hlen (List.length_pos.mpr hne) hrest]
  dsimp only
  have hlt : natOfDigits ds < 10 ^ ds.length :=
    natOfDigits_lt ds (fun c hc => digitVal_lt c (hdig c hc))
  have hle : (10 : Nat) ^ ds.length ≤ 10 ^ 4 := Nat.pow_le_pow_right (by omega) hlen
  rw [if_pos (by omega)]

theorem decimal_run_exact4 (ds rest : List Char) (h4 : ds.length = 4)
    (hdig : ∀ c ∈ ds, c ∈ digitChars) :
    decimal 1 4 (ds ++ rest) = .ok (dropWS rest) (natOfDigits ds) := by
  unfold decimal
  rw [show (4 : Nat) = ds.length from h4.symm,
    manySD_run_exact ds rest 1 ds.length
      (by intro h; rw [h] at h4; simp at h4) hdig rfl (by omega)]
  dsimp only
  have hlt : natOfDigits ds < 10 ^ ds.length :=
    natOfDigits_lt ds (fun c hc => digitVal_lt c (hdig c hc))
  have hp : (10 : Nat) ^ ds.length = 10000 := by rw [h4]; norm_num
  rw [if_pos (by omega)]

theorem wsOneOf_fail_eq (k s : List Char) (c : Char) (t : List Char)
    (hdrop : dropWS s = c :: t) (hc : c ∉ k) : wsP (oneOf k) s = .fail (c :: t) := by
  simp [wsP, oneOf, hdrop, hc]

theorem digit_not_dD (c : Char) (h : c ∈ digitChars) : c ∉ (['d', 'D'] : List Char) := by
  have hd : digitChars = ['0', '1', '2', '3', '4', '5', '6', '7', '8', '9'] := rfl
  rw [hd] at h
  fin_cases h <;> decide

theorem digit_not_pm (c : Char) (h : c ∈ digitChars) : c ∉ (['+', '-'] : List Char) := by
  have hd : digitChars = ['0', '1', '2', '3', '4', '5', '6', '7', '8', '9'] := rfl
  rw [hd] at h
  fin_cases h <;> decide

theorem many1DigitOk_true_of (s : List Char) (c : Char) (t : List Char)
    (hdrop : dropWS s = c :: t) (hc : c ∈ digitChars) : many1DigitOk s = true := by
  simp [many1DigitOk, singleDecimal, wsP, oneOf, hdrop, hc]

theorem parseRoll_toobig_of_digit_rem (input rem : List Char) (res : RollSettings)
    (c : Char) (t : List Char) (hi : parseRollInner input = .ok rem res)
    (hn : res.number ≠ 0) (hs : res.sides ≠ 0) (hdrop : dropWS rem = c :: t)
    (hc : c ∈ digitChars) : parseRoll input = some (.error .TooBig) := by
  unfold parseRoll
  rw [hi]
  dsimp only
  rw [if_neg (by rintro (h0 | h0); exacts [hn h0, hs h0]),
    many1DigitOk_true_of rem c t hdrop hc]
  simp

theorem drop4_cons (ds : List Char) (hlen : 5 ≤ ds.length) :
    ∃ c t, ds.drop 4 = c :: t := by
  cases h : ds.drop 4 with
  | nil =>
    exfalso
    have hl := congrArg List.length h
    simp at hl
    omega
  | cons c t => exact ⟨c, t, rfl⟩

theorem take4_length (ds : List Char) (hlen : 5 ≤ ds.length) : (ds.take 4).length = 4 := by
  simp [List.length_take]
  omega

theorem parseRollInner_count_overflow (ds : List Char) (hdig : ∀ c ∈ ds, c ∈ digitChars)
    (hlen : 5 ≤ ds.length) :
    parseRollInner (ds ++ "d20".data) = .fail (ds.drop 4 ++ "d20".data) := by
  have hsplit : ds.take 4 ++ ds.drop 4 = ds := List.take_append_drop 4 ds
  obtain ⟨c, dr, hdr⟩ := drop4_cons ds hlen
  have hcd : c ∈ digitChars := hdig c (List.drop_subset 4 ds (by rw [hdr]; simp))
  unfold parseRollInner
  rw [show ds ++ "d20".data = ds.take 4 ++ (ds.drop 4 ++ "d20".data) by
    rw [← List.append_assoc, hsplit]]
  rw [decimal_run_exact4 (ds.take 4) _ (take4_length ds hlen)
    (fun x hx => hdig x (List.take_subset 4 ds hx))]
  dsimp only
  have hdw : dropWS (ds.drop 4 ++ "d20".data) = c :: (dr ++ "d20".data) := by
    rw [hdr, List.cons_append]
    exact dropWS_cons_of_not_ws c _ (digit_not_ws c hcd)
  rw [hdw, show diceSeparator (c :: (dr ++ "d20".data)) = .fail (c :: (dr ++ "d20".data)) from
    wsOneOf_fail_eq ['d', 'D'] _ c (dr ++ "d20".data)
      (dropWS_cons_of_not_ws c _ (digit_not_ws c hcd))
      (digit_not_dD c hcd)]
  dsimp only
  rw [hdr, List.cons_append]

theorem parseRollInner_sides_overflow (ds : List Char) (hdig : ∀ c ∈ ds, c ∈ digitChars)
    (hlen : 5 ≤ ds.length) :
    parseRollInner ("1d".data ++ ds)
      = .ok (ds.drop 4) ⟨1, natOfDigits (ds.take 4), none, none⟩ := by
  have hsplit : ds.take 4 ++ ds.drop 4 = ds := List.take_append_drop 4 ds
  obtain ⟨c, dr, hdr⟩ := drop4_cons ds hlen
  have hcd : c ∈ digitChars := hdig c (List.drop_subset 4 ds (by rw [hdr]; simp))
  have hdwdr : dropWS (ds.drop 4) = ds.drop 4 := by
    rw [hdr]
    exact dropWS_cons_of_not_ws c dr (digit_not_ws c hcd)
  have hdwds : dropWS ds = ds := by
    obtain ⟨cc, tt, hcc⟩ : ∃ cc tt, ds = cc :: tt := by
      cases ds
      · simp at hlen
      · exact ⟨_, _, rfl⟩
    rw [hcc]
    exact dropWS_cons_of_not_ws cc tt (digit_not_ws cc (hdig cc (by rw [hcc]; simp)))
  unfold parseRollInner
  rw [show "1d".data ++ ds = ['1'] ++ ('d' :: ds) from rfl,
    decimal_run_any ['1'] ('d' :: ds) (by simp)
      (by intro x hx; simp at hx; subst hx; decide) (by decide)
      (Or.inr ⟨'d', ds, dropWS_cons_of_not_ws 'd' ds (by decide), by decide⟩)]
  dsimp only
  rw [dropWS_cons_of_not_ws 'd' ds (by decide),
    diceSeparator_run 'd' ds (by decide) (by decide)]
  dsimp only
  rw [hdwds]
  conv_lhs => rw [show ds = ds.take 4 ++ ds.drop 4 from hsplit.symm]
  rw [decimal_run_exact4 (ds.take 4) (ds.drop 4) (take4_length ds hlen)
    (fun x hx => hdig x (List.take_subset 4 ds hx))]
  dsimp only
  rw [hdwdr]
  obtain ⟨e, hf⟩ := modifierSeparator_fail (ds.drop 4)
    (Or.inr ⟨c, dr, by rw [hdr]; exact dropWS_cons_of_not_ws c dr (digit_not_ws c hcd),
      digit_not_pm c hcd⟩)
  rw [hf]
  dsimp only
  rw [show natOfDigits ['1'] = 1 from by decide]

theorem parseRollInner_mod_overflow (ds : List Char) (hdig : ∀ c ∈ ds, c ∈ digitChars)
    (hlen : 5 ≤ ds.length) :
    parseRollInner ("1d20+".data ++ ds)
      = .ok (ds.drop 4) ⟨1, 20, some ((natOfDigits (ds.take 4) : Int)), none⟩ := by
  have hsplit : ds.take 4 ++ ds.drop 4 = ds := List.take_append_drop 4 ds
  obtain ⟨c, dr, hdr⟩ := drop4_cons ds hlen
  have hcd : c ∈ digitChars := hdig c (List.drop_subset 4 ds (by rw [hdr]; simp))
  have hdwdr : dropWS (ds.drop 4) = ds.drop 4 := by
    rw [hdr]
    exact dropWS_cons_of_not_ws c dr (digit_not_ws c hcd)
  have hdwds : dropWS ds = ds := by
    obtain ⟨cc, tt, hcc⟩ : ∃ cc tt, ds = cc :: tt := by
      cases ds
      · simp at hlen
      · exact ⟨_, _, rfl⟩
    rw [hcc]
    exact dropWS_cons_of_not_ws cc tt (digit_not_ws cc (hdig cc (by rw [hcc]; simp)))
  unfold parseRollInner
  rw [show "1d20+".data ++ ds = ['1'] ++ ('d' :: ('2' :: '0' :: '+' :: ds)) from rfl,
    decimal_run_any ['1'] ('d' :: ('2' :: '0' :: '+' :: ds)) (by simp)
      (by intro x hx; simp at hx; subst hx; decide) (by decide)
      (Or.inr ⟨'d', '2' :: '0' :: '+' :: ds,
        dropWS_cons_of_not_ws 'd' _ (by decide), by decide⟩)]
  dsimp only
  rw [dropWS_cons_of_not_ws 'd' _ (by decide),
    diceSeparator_run 'd' ('2' :: '0' :: '+' :: ds) (by decide) (by decide)]
  dsimp only
  rw [dropWS_cons_of_not_ws '2' _ (by decide),
    show ('2' :: '0' :: '+' :: ds) = ['2', '0'] ++ ('+' :: ds) from rfl,
    decimal_run_any ['2', '0'] ('+' :: ds) (by simp)
      (by intro x hx; simp at hx; rcases hx with rfl | rfl <;> decide) (by decide)
      (Or.inr ⟨'+', ds, dropWS_cons_of_not_ws '+' ds (by decide), by decide⟩)]
  dsimp only
  rw [dropWS_cons_of_not_ws '+' ds (by decide),
    modifierSeparator_run '+' ds (by decide) (by decide)]
  dsimp only
  rw [hdwds]
  conv_lhs => rw [show ds = ds.take 4 ++ ds.drop 4 from hsplit.symm]
  rw [decimal_run_exact4 (ds.take 4) (ds.drop 4) (take4_length ds hlen)
    (fun x hx => hdig x (List.take_subset 4 ds hx))]
  dsimp only
  rw [hdwdr]
  have hmag : natOfDigits (ds.take 4) < 10 ^ (ds.take 4).length :=
    natOfDigits_lt (ds.take 4)
      (fun x hx => digitVal_lt x (hdig x (List.take_subset 4 ds hx)))
  have hp : (10 : Nat) ^ (ds.take 4).length = 10000 := by
    rw [take4_length ds hlen]
    norm_num
  rw [if_pos (by constructor <;> split <;> omega),
    if_neg (by decide : ¬ ('+' : Char) = '-'),
    show natOfDigits ['1'] = 1 from by decide,
    show natOfDigits ['2', '0'] = 20 from by decide]

/-! ## Whitespace-congruence lemmas -/

theorem strip_dropWS (s : List Char) : strip (dropWS s) = strip s := by
  induction s with
  | nil => rfl
  | cons a s ih =>
    by_cases h : isWS a
    · rw [show dropWS (a :: s) = dropWS s by simp [dropWS, List.dropWhile_cons, h],
        show strip (a :: s) = strip s by simp [strip, List.filter_cons, h]]
      exact ih
    · rw [dropWS_cons_of_not_ws a s (by simpa using h)]

theorem dropWS_shape (s : List Char) :
    (dropWS s = [] ∧ strip s = []) ∨
    ∃ c t, dropWS s = c :: t ∧ isWS c = false ∧ strip s = c :: strip t := by
  induction s with
  | nil => left; exact ⟨rfl, rfl⟩
  | cons a s ih =>
    by_cases h : isWS a
    · have hd : dropWS (a :: s) = dropWS s := by simp [dropWS, List.dropWhile_cons, h]
      have hs : strip (a :: s) = strip s := by simp [strip, List.filter_cons, h]
      rcases ih with ⟨h1, h2⟩ | ⟨c, t, h1, h2, h3⟩
      · left; exact ⟨by rw [hd, h1], by rw [hs, h2]⟩
      · right; exact ⟨c, t, by rw [hd, h1], h2, by rw [hs, h3]⟩
    · right
      refine ⟨a, s, dropWS_cons_of_not_ws a s (by simpa using h), by simpa using h, ?_⟩
      simp [strip, List.filter_cons, h]

theorem wsOneOf_cong (k s t : List Char) (h : strip s = strip t) :
    (∃ e e', wsP (oneOf k) s = .fail e ∧ wsP (oneOf k) t = .fail e') ∨
    (∃ c rs rt, wsP (oneOf k) s = .ok rs c ∧ wsP (oneOf k) t = .ok rt c ∧
      strip rs = strip rt) := by
  rcases dropWS_shape s with ⟨hs1, hs2⟩ | ⟨c, ts, hs1, hs2, hs3⟩ <;>
    rcases dropWS_shape t with ⟨ht1, ht2⟩ | ⟨c', tt, ht1, ht2, ht3⟩
  · left
    exact ⟨[], [], by simp [wsP, oneOf, hs1], by simp [wsP, oneOf, ht1]⟩
  · rw [hs2, ht3] at h
    simp at h
  · rw [hs3, ht2] at h
    simp at h
  · rw [hs3, ht3] at h
    simp only [List.cons.injEq] at h
    obtain ⟨rfl, hteq⟩ := h
    by_cases hc : c ∈ k
    · right
      refine ⟨c, dropWS ts, dropWS tt, by simp [wsP, oneOf, hs1, hc],
        by simp [wsP, oneOf, ht1, hc], ?_⟩
      rw [strip_dropWS, strip_dropWS]
      exact hteq
    · left
      exact ⟨c :: ts, c :: tt, by simp [wsP, oneOf, hs1, hc], by simp [wsP, oneOf, ht1, hc]⟩

theorem singleDecimal_cong (s t : List Char) (h : strip s = strip t) :
    (∃ e e', singleDecimal s = .fail e ∧ singleDecimal t = .fail e') ∨
    (∃ c rs rt, singleDecimal s = .ok rs c ∧ singleDecimal t = .ok rt c ∧
      strip rs = strip rt) :=
  wsOneOf_cong digitChars s t h

theorem diceSeparator_cong (s t : List Char) (h : strip s = strip t) :
    (∃ e e', diceSeparator s = .fail e ∧ diceSeparator t = .fail e') ∨
    (∃ c rs rt, diceSeparator s = .ok rs c ∧ diceSeparator t = .ok rt c ∧
      strip rs = strip rt) :=
  wsOneOf_cong ['d', 'D'] s t h

theorem modifierSeparator_cong (s t : List Char) (h : strip s = strip t) :
    (∃ e e', modifierSeparator s = .fail e ∧ modifierSeparator t = .fail e') ∨
    (∃ c rs rt, modifierSeparator s = .ok rs c ∧ modifierSeparator t = .ok rt c ∧
      strip rs = strip rt) :=
  wsOneOf_cong ['+', '-'] s t h

theorem manySD_cong : ∀ (mx mn : Nat) (s t : List Char), strip s = strip t →
    (∃ e e', manyMNgo singleDecimal mn mx s = .fail e ∧
      manyMNgo singleDecimal mn mx t = .fail e') ∨
    (∃ vs rs rt, manyMNgo singleDecimal mn mx s = .ok rs vs ∧
      manyMNgo singleDecimal mn mx t = .ok rt vs ∧ strip rs = strip rt) := by
  intro mx
  induction mx with
  | zero => intro mn s t h; right; exact ⟨[], s, t, rfl, rfl, h⟩
  | succ mx ih =>
    intro mn s t h
    simp only [manyMNgo]
    rcases singleDecimal_cong s t h with ⟨e, e', hfs, hft⟩ | ⟨c, rs, rt, hos, hot, hrst⟩
    · rw [hfs, hft]
      dsimp only
      by_cases hmn : mn = 0
      · right
        rw [if_pos hmn, if_pos hmn]
        exact ⟨[], s, t, rfl, rfl, h⟩
      · left
        rw [if_neg hmn, if_neg hmn]
        exact ⟨e, e', rfl, rfl⟩
    · rw [hos, hot]
      dsimp only
      rcases ih (mn - 1) rs rt hrst with ⟨e, e', h1, h2⟩ | ⟨vs, rs2, rt2, h1, h2, h3⟩
      · left
        rw [h1, h2]
        exact ⟨e, e', rfl, rfl⟩
      · right
        rw [h1, h2]
        exact ⟨c :: vs, rs2, rt2, rfl, rfl, h3⟩

theorem decimal_cong (mn : Nat) (s t : List Char) (h : strip s = strip t) :
    (∃ e e', decimal mn 4 s = .fail e ∧ decimal mn 4 t = .fail e') ∨
    (∃ v rs rt, decimal mn 4 s = .ok rs v ∧ decimal mn 4 t = .ok rt v ∧
      strip rs = strip rt) := by
  unfold decimal
  rcases manySD_cong 4 mn s t h with ⟨e, e', h1, h2⟩ | ⟨vs, rs, rt, h1, h2, h3⟩
  · left
    rw [h1, h2]
    exact ⟨e, e', rfl, rfl⟩
  · right
    rw [h1, h2]
    dsimp only
    obtain ⟨hlen, hdig⟩ := manyMNgo_sd_ok 4 mn s rs vs h1
    have hv : natOfDigits vs < 10 ^ vs.length :=
      natOfDigits_lt vs (fun c hc => digitVal_lt c (hdig c hc))
    have h4 : (10 : Nat) ^ vs.length ≤ 10 ^ 4 := Nat.pow_le_pow_right (by omega) hlen
    rw [if_pos (by omega), if_pos (by omega)]
    exact ⟨natOfDigits vs, rs, rt, rfl, rfl, h3⟩

theorem parseRollInner_cong (s t : List Char) (h : strip s = strip t) :
    (∃ e e', parseRollInner s = .fail e ∧ parseRollInner t = .fail e') ∨
    (∃ res rs rt, parseRollInner s = .ok rs res ∧ parseRollInner t = .ok rt res ∧
      strip rs = strip rt) := by
  unfold parseRollInner
  rcases decimal_cong 1 s t h with ⟨e, e', h1, h2⟩ | ⟨number, rs1, rt1, h1, h2, h3⟩
  · left; rw [h1, h2]; exact ⟨e, e', rfl, rfl⟩
  · rw [h1, h2]
    dsimp only
    rcases diceSeparator_cong rs1 rt1 h3 with ⟨e, e', h4, h5⟩ | ⟨sep, rs2, rt2, h4, h5, h6⟩
    · left; rw [h4, h5]; exact ⟨e, e', rfl, rfl⟩
    · rw [h4, h5]
      dsimp only
      rcases decimal_cong 1 rs2 rt2 h6 with ⟨e, e', h7, h8⟩ | ⟨sides, rs3, rt3, h7, h8, h9⟩
      · left; rw [h7, h8]; exact ⟨e, e', rfl, rfl⟩
      · rw [h7, h8]
        dsimp only
        rcases modifierSeparator_cong rs3 rt3 h9 with ⟨e, e', h10, h11⟩ |
          ⟨sgn, rs4, rt4, h10, h11, h12⟩
        · right
          rw [h10, h11]
          exact ⟨⟨number, sides, none, none⟩, rs3, rt3, rfl, rfl, h9⟩
        · rw [h10, h11]
          dsimp only
          rcases decimal_cong 1 rs4 rt4 h12 with ⟨e, e', h13, h14⟩ |
            ⟨mag, rs5, rt5, h13, h14, h15⟩
          · right
            rw [h13, h14]
            exact ⟨⟨number, sides, none, none⟩, rs3, rt3, rfl, rfl, h9⟩
          · right
            rw [h13, h14]
            dsimp only
            have hmag : mag ≤ 9999 := decimal_ok_le 1 rs4 rs5 mag h13
            have hcond : -2147483648 ≤ (if sgn = '-' then -(mag : Int) else (mag : Int)) ∧
                (if sgn = '-' then -(mag : Int) else (mag : Int)) < 2147483648 := by
              constructor <;> split <;> omega
            rw [if_pos hcond, if_pos hcond]
            exact ⟨⟨number, sides, some (if sgn = '-' then -(mag : Int) else (mag : Int)), none⟩,
              rs5, rt5, rfl, rfl, h15⟩

theorem many1DigitOk_cong (s t : List Char) (h : strip s = strip t) :
    many1DigitOk s = many1DigitOk t := by
  unfold many1DigitOk
  rcases singleDecimal_cong s t h with ⟨e, e', h1, h2⟩ | ⟨c, rs, rt, h1, h2, h3⟩ <;>
    rw [h1, h2]

theorem dropWhile_nil_all (p : Char → Bool) (l : List Char) (h : l.dropWhile p = []) :
    ∀ x ∈ l, p x := by
  induction l with
  | nil => intro x hx; simp at hx
  | cons a l ih =>
    by_cases ha : p a
    · rw [show (a :: l).dropWhile p = l.dropWhile p by simp [List.dropWhile_cons, ha]] at h
      intro x hx
      rcases List.mem_cons.mp hx with rfl | hx
      · exact ha
      · exact ih h x hx
    · rw [show (a :: l).dropWhile p = a :: l by simp [List.dropWhile_cons, ha]] at h
      simp at h

theorem isWS_rust (c : Char) (h : isWS c = true) : isRustWS c = true := by
  simp only [isWS, Bool.or_eq_true, beq_iff_eq] at h
  rcases h with ((rfl | rfl) | rfl) | rfl <;> decide

theorem dropWhile_eq_nil_of_all (p : Char → Bool) (l : List Char)
    (h : ∀ c ∈ l, p c = true) : l.dropWhile p = [] := by
  induction l with
  | nil => rfl
  | cons a l ih =>
    rw [show (a :: l).dropWhile p = l.dropWhile p by
      simp [List.dropWhile_cons, h a (by simp)]]
    exact ih (fun c hc => h c (by simp [hc]))

theorem takeWhile_all (p : Char → Bool) (l : List Char) :
    ∀ c ∈ l.takeWhile p, p c = true := by
  induction l with
  | nil => intro c hc; simp at hc
  | cons a l ih =>
    by_cases ha : p a
    · rw [show (a :: l).takeWhile p = a :: l.takeWhile p by
        simp [List.takeWhile_cons, ha]]
      intro c hc
      rcases List.mem_cons.mp hc with rfl | hc
      · exact ha
      · exact ih c hc
    · rw [show (a :: l).takeWhile p = [] by simp [List.takeWhile_cons, ha]]
      intro c hc
      simp at hc

theorem trim_nil_iff_all (s : List Char) :
    trim s = [] ↔ ∀ c ∈ s, isRustWS c = true := by
  constructor
  · intro h c hc
    have hend : dropWSEnd (dropRustWS s) = [] := h
    unfold dropWSEnd at hend
    rw [List.reverse_eq_nil_iff] at hend
    have hdropped : ∀ c ∈ dropRustWS s, isRustWS c = true := by
      intro c hc
      exact dropWhile_nil_all isRustWS (dropRustWS s).reverse hend c
        (by rw [List.mem_reverse]; exact hc)
    have hsplit : s.takeWhile isRustWS ++ dropRustWS s = s :=
      List.takeWhile_append_dropWhile isRustWS s
    rw [← hsplit] at hc
    rcases List.mem_append.mp hc with hc | hc
    · exact takeWhile_all isRustWS s c hc
    · exact hdropped c hc
  · intro h
    show dropWSEnd (s.dropWhile isRustWS) = []
    rw [dropWhile_eq_nil_of_all isRustWS s h]
    rfl

theorem trim_nil_of_strip_eq (x y : List Char) (h : strip x = strip y)
    (hx : trim x = []) : trim y = [] := by
  rw [trim_nil_iff_all] at hx ⊢
  intro c hc
  by_cases hw : isWS c
  · exact isWS_rust c hw
  · have hmem : c ∈ strip y := List.mem_filter.mpr ⟨hc, by simp [hw]⟩
    rw [← h] at hmem
    exact hx c (List.mem_of_mem_filter hmem)

theorem dropWhile_append_of_all (p : Char → Bool) (w y : List Char)
    (hw : ∀ c ∈ w, p c = true) : (w ++ y).dropWhile p = y.dropWhile p := by
  induction w with
  | nil => rfl
  | cons a w ih =>
    rw [List.cons_append, show (a :: (w ++ y)).dropWhile p = (w ++ y).dropWhile p by
      simp [List.dropWhile_cons, hw a (by simp)]]
    exact ih (fun c hc => hw c (by simp [hc]))

theorem dropWSEnd_append_of_all (y w : List Char) (hw : ∀ c ∈ w, isRustWS c = true) :
    dropWSEnd (y ++ w) = dropWSEnd y := by
  unfold dropWSEnd
  rw [List.reverse_append, dropWhile_append_of_all isRustWS w.reverse y.reverse
    (fun c hc => hw c (List.mem_reverse.mp hc))]

theorem dropWhile_append_split (p : Char → Bool) (x y : List Char) :
    (x ++ y).dropWhile p
      = if x.dropWhile p = [] then y.dropWhile p else x.dropWhile p ++ y := by
  induction x with
  | nil => simp
  | cons a x ih =>
    by_cases ha : p a
    · rw [List.cons_append, show (a :: (x ++ y)).dropWhile p = (x ++ y).dropWhile p by
        simp [List.dropWhile_cons, ha],
        show (a :: x).dropWhile p = x.dropWhile p by simp [List.dropWhile_cons, ha]]
      exact ih
    · rw [List.cons_append, show (a :: (x ++ y)).dropWhile p = a :: (x ++ y) by
        simp [List.dropWhile_cons, ha],
        show (a :: x).dropWhile p = a :: x by simp [List.dropWhile_cons, ha],
        if_neg (by simp)]
      simp

theorem trim_ws_padding (x w1 w2 : List Char) (h1 : ∀ c ∈ w1, isRustWS c = true)
    (h2 : ∀ c ∈ w2, isRustWS c = true) : trim (w1 ++ x ++ w2) = trim x := by
  rw [List.append_assoc]
  show dropWSEnd ((w1 ++ (x ++ w2)).dropWhile isRustWS) = trim x
  rw [dropWhile_append_of_all isRustWS w1 (x ++ w2) h1,
    dropWhile_append_split isRustWS x w2]
  by_cases hx : x.dropWhile isRustWS = []
  · rw [if_pos hx, dropWhile_eq_nil_of_all isRustWS w2 h2]
    show dropWSEnd [] = dropWSEnd (x.dropWhile isRustWS)
    rw [hx]
  · rw [if_neg hx, dropWSEnd_append_of_all (x.dropWhile isRustWS) w2 h2]
    rfl

/-! ## Claim theorems -/

/-- Claim C1, counterexample: in a Roll Session whose two outcomes tie at
total 5, the Advantage resolver picks attempt two (std::cmp::max returns its
second argument on equality) and reports winning index 2, and the
Disadvantage resolver also reports index 2 — not attempt one / index 1 as the
claim states. -/
theorem c1_tie_counterexample :
    tieAdv.try_one.total = 5 ∧
    tieAdv.try_two = some (Roll.new tieSettings tieDrawTwo) ∧
    (Roll.new tieSettings tieDrawTwo).total = 5 ∧
    tieAdv.results_index = some 2 ∧
    tieAdv.result = some (Roll.new tieSettings tieDrawTwo) ∧
    Roll.new tieSettings tieDrawTwo ≠ tieAdv.try_one ∧
    tieDis.results_index = some 2 := by decide

/-- Claim C1 (amended): the Selection Resolver picks the strictly greater
total under Advantage and the strictly lesser total under Disadvantage, with
the matching attempt index; on a tie, however, the reported winning index is
2 under both modes, the winning outcome is attempt two under Advantage, and
under Disadvantage the winning-outcome accessor returns attempt one (whose
total equals attempt two's) while the index still reports 2. -/
theorem c1_selection_amended (rr : RollResults) (t2 : Roll) (h2 : rr.try_two = some t2) :
    (rr.roll_type = RollType.Advantage →
      (t2.total < rr.try_one.total →
          rr.result = some rr.try_one ∧ rr.results_index = some 1) ∧
      (rr.try_one.total < t2.total →
          rr.result = some t2 ∧ rr.results_index = some 2) ∧
      (rr.try_one.total = t2.total →
          rr.result = some t2 ∧ rr.results_index = some 2)) ∧
    (rr.roll_type = RollType.Disadvantage →
      (rr.try_one.total < t2.total →
          rr.result = some rr.try_one ∧ rr.results_index = some 1) ∧
      (t2.total < rr.try_one.total →
          rr.result = some t2 ∧ rr.results_index = some 2) ∧
      (rr.try_one.total = t2.total →
          rr.result = some rr.try_one ∧ rr.results_index = some 2)) := by
  constructor
  · intro hrt
    refine ⟨fun h => ?_, fun h => ?_, fun h => ?_⟩ <;>
        simp only [RollResults.result, RollResults.results_index, hrt, h2] <;>
        refine ⟨?_, ?_⟩
    · rw [if_pos h]
    · rw [if_pos h]
    · rw [if_neg (by omega)]
    · rw [if_neg (by omega)]
    · rw [if_neg (by omega)]
    · rw [if_neg (by omega)]
  · intro hrt
    refine ⟨fun h => ?_, fun h => ?_, fun h => ?_⟩ <;>
        simp only [RollResults.result, RollResults.results_index, hrt, h2] <;>
        refine ⟨?_, ?_⟩
    · rw [if_neg (by omega)]
    · rw [if_pos h]
    · rw [if_pos h]
    · rw [if_neg (by omega)]
    · rw [if_neg (by omega)]
    · rw [if_neg (by omega)]

/-- Witness for C1 (amended), at the concrete tied Advantage session. -/
theorem c1_selection_witness :
    tieAdv.result = some (Roll.new tieSettings tieDrawTwo) ∧
    tieAdv.results_index = some 2 :=
  ((c1_selection_amended tieAdv (Roll.new tieSettings tieDrawTwo) (by decide)).1
    (by decide)).2.2 (by decide)

/-- Claim C2: for a validated spec (count and sides in `[1, 9999]`, optional
modifier of magnitude in `[1, 9999]`) and any uniform sampler staying in
`[1, sides]`, the simulated outcome has exactly `count` rolls, every roll in
`[1, sides]`, and its `i64` total — wrap-around arithmetic included — equals
the exact sum of the rolls plus the modifier (0 when absent): the sum cannot
overflow even at count = sides = 9999. -/
theorem c2_simulate_correct (s : RollSettings) (draw : Nat → Nat)
    (_hn1 : 1 ≤ s.number) (hn2 : s.number ≤ 9999)
    (_hs1 : 1 ≤ s.sides) (hs2 : s.sides ≤ 9999)
    (hm : ∀ m, s.modifier = some m → 1 ≤ m.natAbs ∧ m.natAbs ≤ 9999)
    (hd : ∀ i, 1 ≤ draw i ∧ draw i ≤ s.sides) :
    (Roll.new s draw).rolls.length = s.number ∧
    (∀ x ∈ (Roll.new s draw).rolls, 1 ≤ x ∧ x ≤ s.sides) ∧
    (Roll.new s draw).total
      = ((Roll.new s draw).rolls.map fun x : Nat => (x : Int)).sum + s.modifier.getD 0 := by
  refine ⟨by simp [Roll.new], ?_, ?_⟩
  · intro x hx
    simp only [Roll.new, List.mem_map, List.mem_range] at hx
    obtain ⟨i, _, rfl⟩ := hx
    exact hd i
  · exact roll_new_total s draw hn2 hs2 (fun m h => (hm m h).2) (fun i => (hd i).2)

/-- Witness for C2 at a concrete spec `2d6+3` with all draws equal to 4. -/
theorem c2_simulate_witness :
    (Roll.new sampleSpec sampleDraw).rolls.length = sampleSpec.number ∧
    (Roll.new sampleSpec sampleDraw).total
      = ((Roll.new sampleSpec sampleDraw).rolls.map fun x : Nat => (x : Int)).sum
        + sampleSpec.modifier.getD 0 := by
  have h := c2_simulate_correct sampleSpec sampleDraw (by decide) (by decide) (by decide)
    (by decide) (fun m hm => by simp [sampleSpec] at hm; omega)
    (fun i => by simp [sampleDraw, sampleSpec])
  exact ⟨h.1, h.2.2⟩

/-- Claim C7: whitespace between tokens is immaterial.  Two inputs equal
after erasing grammar whitespace parse identically whenever the parse
succeeds without a label, and even with a label the recovered count, sides
and modifier agree — the label is a single trailing token whose interior is
significant while its surrounding whitespace is stripped.  The spaced
examples parse as claimed and `"1d20"` and `"1 d 20"` yield equal results. -/
theorem c7_whitespace_insensitive :
    (∀ s t r, strip s = strip t → parseRoll s = some (.ok r) → r.label = none →
      parseRoll t = some (.ok r)) ∧
    (∀ s t rs rt, strip s = strip t → parseRoll s = some (.ok rs) →
      parseRoll t = some (.ok rt) →
      rs.number = rt.number ∧ rs.sides = rt.sides ∧ rs.modifier = rt.modifier) ∧
    (∀ x w1 w2 : List Char, (∀ c ∈ w1, isRustWS c = true) →
      (∀ c ∈ w2, isRustWS c = true) → trim (w1 ++ x ++ w2) = trim x) ∧
    parseRoll "1d20".data = some (.ok ⟨1, 20, none, none⟩) ∧
    parseRoll "1 d 20".data = some (.ok ⟨1, 20, none, none⟩) ∧
    parseRoll "9 9 9 9 d 2 0".data = some (.ok ⟨9999, 20, none, none⟩) ∧
    parseRoll "1d20".data = parseRoll "1 d 20".data := by
  refine ⟨?_, ?_, fun x w1 w2 h1 h2 => trim_ws_padding x w1 w2 h1 h2,
    by decide, by decide, by decide, by decide⟩
  · intro s t r h hok hlab
    obtain ⟨rem, res, hi, hz, hb, hcase⟩ := parseRoll_ok_shape s r hok
    have hcase' : trim rem = [] ∧ r = res := by
      rcases hcase with hc | ⟨ht, h'⟩
      · exact hc
      · rw [h'] at hlab
        simp at hlab
    obtain ⟨htrim, rfl⟩ := hcase'
    rcases parseRollInner_cong s t h with ⟨e, e', h1, h2⟩ | ⟨res', rs, rt, h1, h2, h3⟩
    · rw [hi] at h1
      simp at h1
    · rw [hi] at h1
      simp only [PRes.ok.injEq] at h1
      obtain ⟨rfl, rfl⟩ := h1
      unfold parseRoll
      rw [h2]
      dsimp only
      rw [if_neg hz, ← many1DigitOk_cong rem rt h3, hb]
      simp only [Bool.false_eq_true, if_false]
      rw [if_pos (trim_nil_of_strip_eq rem rt h3 htrim)]
  · intro s t rs rt h hs ht
    obtain ⟨remS, resS, hiS, -, -, hcaseS⟩ := parseRoll_ok_shape s rs hs
    obtain ⟨remT, resT, hiT, -, -, hcaseT⟩ := parseRoll_ok_shape t rt ht
    rcases parseRollInner_cong s t h with ⟨e, e', h1, h2⟩ | ⟨res0, rs0, rt0, h1, h2, h3⟩
    · rw [hiS] at h1
      simp at h1
    · rw [hiS] at h1
      rw [hiT] at h2
      simp only [PRes.ok.injEq] at h1 h2
      have hS : rs.number = resS.number ∧ rs.sides = resS.sides ∧
          rs.modifier = resS.modifier := by
        rcases hcaseS with ⟨-, h'⟩ | ⟨-, h'⟩ <;> rw [h'] <;> exact ⟨rfl, rfl, rfl⟩
      have hT : rt.number = resT.number ∧ rt.sides = resT.sides ∧
          rt.modifier = resT.modifier := by
        rcases hcaseT with ⟨-, h'⟩ | ⟨-, h'⟩ <;> rw [h'] <;> exact ⟨rfl, rfl, rfl⟩
      refine ⟨?_, ?_, ?_⟩
      · rw [hS.1, hT.1, h1.2, h2.2]
      · rw [hS.2.1, hT.2.1, h1.2, h2.2]
      · rw [hS.2.2, hT.2.2, h1.2, h2.2]

/-- Witness for C7: transporting the parse of `"1d20"` across the whitespace
variant `"1 d 20"`. -/
theorem c7_whitespace_witness :
    parseRoll "1 d 20".data = some (.ok ⟨1, 20, none, none⟩) :=
  (c7_whitespace_insensitive).1 "1d20".data "1 d 20".data ⟨1, 20, none, none⟩
    (by decide) (by decide) (by decide)

/-- Claim C8: when the joined roll text exceeds the character budget, the
rendered roll list is exactly the first `budget` characters followed by the
3-character ellipsis, a text at or under the budget is rendered unchanged,
and the budgets wired into the renderers are 4000 for the single-attempt
display and 2000 per attempt for every two-attempt display, Advantage and
Disadvantage alike. -/
theorem c8_presentation_truncation (r : Roll) (j : List Char) (hj : r.format_results = some j) :
    (∀ t : Nat, t < j.length →
        r.format_roll (some t)
          = some ('(' :: (j.take t ++ "...".data) ++ ')' :: formatModifier r.settings.modifier)
        ∧ (j.take t ++ "...".data).length = t + 3) ∧
    (∀ t : Nat, j.length ≤ t →
        r.format_roll (some t)
          = some ('(' :: j ++ ')' :: formatModifier r.settings.modifier)) ∧
    (4000 < j.length →
        ∃ out, r.display = some out ∧ List.IsInfix (j.take 4000 ++ "...".data) out) ∧
    (∀ rr : RollResults, rr.try_one = r → rr.roll_type ≠ RollType.Straight →
      ∀ t2 j2, rr.try_two = some t2 → t2.format_results = some j2 →
      2000 < j.length → 2000 < j2.length →
      ∃ out, rr.display = some out ∧ List.IsInfix (j.take 2000 ++ "...".data) out ∧
        List.IsInfix (j2.take 2000 ++ "...".data) out) := by
  refine ⟨?_, ?_, ?_, ?_⟩
  · intro t ht
    refine ⟨format_roll_truncate r j hj t ht, ?_⟩
    rw [List.length_append, List.length_take]
    simp
    omega
  · intro t ht
    exact format_roll_no_truncate r j hj t ht
  · intro h4
    have hfr := format_roll_truncate r j hj 4000 h4
    simp only [Roll.display, hfr]
    refine ⟨_, rfl, ?_⟩
    refine ⟨"Parameters: ".data ++ r.settings.format_parameters ++
      '\n' :: "Roll: ".data ++ ['('],
      ')' :: formatModifier r.settings.modifier ++
      '\n' :: "Your final roll is: 🎲 <b>".data ++ intRepr r.total ++ "</b> 🎲".data, ?_⟩
    simp [List.append_assoc]
  · intro rr hr1 hrt t2 j2 h2 hj2 hl1 hl2
    have hfr1 : rr.try_one.format_roll (some 2000)
        = some ('(' :: (j.take 2000 ++ "...".data)
            ++ ')' :: formatModifier rr.try_one.settings.modifier) := by
      rw [hr1]
      exact format_roll_truncate r j hj 2000 hl1
    have hfr2 := format_roll_truncate t2 j2 hj2 2000 hl2
    obtain ⟨i, hidx, hi12⟩ : ∃ i, rr.results_index = some i ∧ (i = 1 ∨ i = 2) := by
      cases hty : rr.roll_type with
      | Straight => exact absurd hty hrt
      | Advantage =>
        refine ⟨if t2.total < rr.try_one.total then 1 else 2, ?_, ?_⟩
        · simp only [RollResults.results_index, hty, h2]
        · split <;> simp
      | Disadvantage =>
        refine ⟨if rr.try_one.total < t2.total then 1 else 2, ?_, ?_⟩
        · simp only [RollResults.results_index, hty, h2]
        · split <;> simp
    obtain ⟨res, hres⟩ : ∃ res, rr.result = some res := by
      cases hty : rr.roll_type with
      | Straight => exact absurd hty hrt
      | Advantage =>
        exact ⟨if t2.total < rr.try_one.total then rr.try_one else t2,
          by simp only [RollResults.result, hty, h2]⟩
      | Disadvantage =>
        exact ⟨if t2.total < rr.try_one.total then t2 else rr.try_one,
          by simp only [RollResults.result, hty, h2]⟩
    have hdisp : rr.display
        = some ("Parameters: ".data ++ rr.settings.format_parameters ++
          " with <u>".data ++ rr.roll_type.display ++ "</u>".data ++
          '\n' :: (if i = 2 then
              "<s>".data ++ ("Attempt one: ".data ++
                ('(' :: (j.take 2000 ++ "...".data)
                  ++ ')' :: formatModifier rr.try_one.settings.modifier)) ++ "</s>".data
            else "Attempt one: ".data ++
                ('(' :: (j.take 2000 ++ "...".data)
                  ++ ')' :: formatModifier rr.try_one.settings.modifier)) ++
          '\n' :: (if i = 1 then
              "<s>".data ++ ("Attempt two: ".data ++
                ('(' :: (j2.take 2000 ++ "...".data)
                  ++ ')' :: formatModifier t2.settings.modifier)) ++ "</s>".data
            else "Attempt two: ".data ++
                ('(' :: (j2.take 2000 ++ "...".data)
                  ++ ')' :: formatModifier t2.settings.modifier)) ++
          '\n' :: "Your final roll is: 🎲 <b>".data ++ intRepr res.total
            ++ "</b> 🎲".data) := by
      cases hty : rr.roll_type with
      | Straight => exact absurd hty hrt
      | Advantage => simp only [RollResults.display, hty, hidx, h2, hfr1, hfr2, hres]
      | Disadvantage => simp only [RollResults.display, hty, hidx, h2, hfr1, hfr2, hres]
    rcases hi12 with rfl | rfl
    · rw [if_neg (by decide : ¬ (1 : Nat) = 2), if_pos (rfl : (1 : Nat) = 1)] at hdisp
      refine ⟨_, hdisp, ?_, ?_⟩
      · refine ⟨"Parameters: ".data ++ rr.settings.format_parameters ++ " with <u>".data ++
          rr.roll_type.display ++ "</u>".data ++ '\n' :: "Attempt one: ".data ++ ['('],
          ')' :: formatModifier rr.try_one.settings.modifier ++
          '\n' :: "<s>".data ++ "Attempt two: ".data ++ '(' ::
            (j2.take 2000 ++ "...".data) ++ ')' :: formatModifier t2.settings.modifier ++
          "</s>".data ++
          '\n' :: "Your final roll is: 🎲 <b>".data ++ intRepr res.total ++
            "</b> 🎲".data, ?_⟩
        simp [List.append_assoc]
      · refine ⟨"Parameters: ".data ++ rr.settings.format_parameters ++ " with <u>".data ++
          rr.roll_type.display ++ "</u>".data ++ '\n' :: "Attempt one: ".data ++ '(' ::
            (j.take 2000 ++ "...".data) ++ ')' :: formatModifier rr.try_one.settings.modifier ++
          '\n' :: "<s>".data ++ "Attempt two: ".data ++ ['('],
          ')' :: formatModifier t2.settings.modifier ++ "</s>".data ++
          '\n' :: "Your final roll is: 🎲 <b>".data ++ intRepr res.total ++
            "</b> 🎲".data, ?_⟩
        simp [List.append_assoc]
    · rw [if_pos (rfl : (2 : Nat) = 2), if_neg (by decide : ¬ (2 : Nat) = 1)] at hdisp
      refine ⟨_, hdisp, ?_, ?_⟩
      · refine ⟨"Parameters: ".data ++ rr.settings.format_parameters ++ " with <u>".data ++
          rr.roll_type.display ++ "</u>".data ++ '\n' :: "<s>".data ++
          "Attempt one: ".data ++ ['('],
          ')' :: formatModifier rr.try_one.settings.modifier ++ "</s>".data ++
          '\n' :: "Attempt two: ".data ++ '(' ::
            (j2.take 2000 ++ "...".data) ++ ')' :: formatModifier t2.settings.modifier ++
          '\n' :: "Your final roll is: 🎲 <b>".data ++ intRepr res.total ++ "</b> 🎲".data, ?_⟩
        simp [List.append_assoc]
      · refine ⟨"Parameters: ".data ++ rr.settings.format_parameters ++ " with <u>".data ++
          rr.roll_type.display ++ "</u>".data ++ '\n' :: "<s>".data ++
          "Attempt one: ".data ++
          '(' :: (j.take 2000 ++ "...".data)
            ++ ')' :: formatModifier rr.try_one.settings.modifier ++ "</s>".data ++
          '\n' :: "Attempt two: ".data ++ ['('],
          ')' :: formatModifier t2.settings.modifier ++
          '\n' :: "Your final roll is: 🎲 <b>".data ++ intRepr res.total ++ "</b> 🎲".data, ?_⟩
        simp [List.append_assoc]

/-- Witness for C8 at a roll with joined text `"1 + 2"` and budget 3. -/
theorem c8_presentation_witness :
    Roll.format_roll sampleRoll (some 3)
      = some ('(' :: ("1 + 2".data.take 3 ++ "...".data)
          ++ ')' :: formatModifier sampleRoll.settings.modifier)
    ∧ ("1 + 2".data.take 3 ++ "...".data).length = 3 + 3 :=
  (c8_presentation_truncation sampleRoll "1 + 2".data (by decide)).1 3 (by decide)

/-- Claim C10: a session built from a validated spec has a second attempt
exactly when the mode is not Straight, and every partial accessor used on a
reachable session — the winner, the winning index, the roll-list join (the
spec guarantees count at least 1) and the full rendering — succeeds. -/
theorem c10_session_invariant (s : RollSettings) (rt : RollType) (d1 d2 : Nat → Nat)
    (hn : 1 ≤ s.number) :
    ((RollResults.new s rt d1 d2).try_two.isSome ↔ rt ≠ RollType.Straight) ∧
    (RollResults.new s rt d1 d2).result.isSome ∧
    (RollResults.new s rt d1 d2).results_index.isSome ∧
    (RollResults.new s rt d1 d2).try_one.format_results.isSome ∧
    (RollResults.new s rt d1 d2).display.isSome := by
  have hf1 : (Roll.new s d1).format_results.isSome := format_results_isSome s d1 hn
  have hf2 : (Roll.new s d2).format_results.isSome := format_results_isSome s d2 hn
  obtain ⟨l1, hl1⟩ := Option.isSome_iff_exists.mp (format_roll_isSome _ hf1 (some 2000))
  obtain ⟨l2, hl2⟩ := Option.isSome_iff_exists.mp (format_roll_isSome _ hf2 (some 2000))
  have hdisp := roll_display_isSome (Roll.new s d1) hf1
  obtain ⟨d, hd⟩ := Option.isSome_iff_exists.mp hdisp
  cases rt with
  | Straight =>
    refine ⟨by simp [RollResults.new], ?_, ?_, hf1, ?_⟩ <;>
      simp [RollResults.new, RollResults.result, RollResults.results_index,
        RollResults.display, hd]
  | Advantage =>
    refine ⟨by simp [RollResults.new], ?_, ?_, hf1, ?_⟩ <;>
      simp [RollResults.new, RollResults.result, RollResults.results_index,
        RollResults.display, hl1, hl2]
  | Disadvantage =>
    refine ⟨by simp [RollResults.new], ?_, ?_, hf1, ?_⟩ <;>
      simp [RollResults.new, RollResults.result, RollResults.results_index,
        RollResults.display, hl1, hl2]

/-- Claim C3: a numeric field longer than 4 digits is rejected, never folded
into a label — the grammar consumes at most 4 digits per field, after it any
leftover whose first non-grammar-whitespace character is a digit forces the
`TooBig` error, and a run of at least 5 digits fails at every field
position: the count position with a shape `ParseError` locating the excess
digits, the sides and modifier positions with `TooBig`.  Concretely,
`100000d20` fails with the shape error at `00d20`, and `1d100000` and
`1d20+10000000` fail with `TooBig`. -/
theorem c3_too_many_digits :
    parseRoll "100000d20".data
      = some (.error (.ParseError "error OneOf at: 00d20".data)) ∧
    parseRoll "1d100000".data = some (.error .TooBig) ∧
    parseRoll "1d20+10000000".data = some (.error .TooBig) ∧
    (∀ input rem res c t, parseRollInner input = .ok rem res →
      res.number ≠ 0 → res.sides ≠ 0 → dropWS rem = c :: t → c ∈ digitChars →
      parseRoll input = some (.error .TooBig)) ∧
    (∀ ds : List Char, (∀ c ∈ ds, c ∈ digitChars) → 5 ≤ ds.length →
      parseRoll (ds ++ "d20".data)
        = some (.error (.ParseError (nomMessage (ds.drop 4 ++ "d20".data)))) ∧
      (natOfDigits (ds.take 4) ≠ 0 →
        parseRoll ("1d".data ++ ds) = some (.error .TooBig)) ∧
      parseRoll ("1d20+".data ++ ds) = some (.error .TooBig)) := by
  refine ⟨by decide, by decide, by decide, ?_, ?_⟩
  · intro input rem res c t hi hn hs hdrop hc
    exact parseRoll_toobig_of_digit_rem input rem res c t hi hn hs hdrop hc
  · intro ds hdig hlen
    obtain ⟨c, dr, hdr⟩ := drop4_cons ds hlen
    have hcd : c ∈ digitChars := hdig c (List.drop_subset 4 ds (by rw [hdr]; simp))
    have hdw4 : dropWS (ds.drop 4) = c :: dr := by
      rw [hdr]
      exact dropWS_cons_of_not_ws c dr (digit_not_ws c hcd)
    refine ⟨?_, ?_, ?_⟩
    · unfold parseRoll
      rw [parseRollInner_count_overflow ds hdig hlen]
    · intro hnz
      exact parseRoll_toobig_of_digit_rem ("1d".data ++ ds) (ds.drop 4)
        ⟨1, natOfDigits (ds.take 4), none, none⟩ c dr
        (parseRollInner_sides_overflow ds hdig hlen)
        (by simp) hnz hdw4 hcd
    · exact parseRoll_toobig_of_digit_rem ("1d20+".data ++ ds) (ds.drop 4)
        ⟨1, 20, some ((natOfDigits (ds.take 4) : Int)), none⟩ c dr
        (parseRollInner_mod_overflow ds hdig hlen)
        (by simp) (by simp) hdw4 hcd

/-- Witness for C3: the leftover-digit rule fires on `"1d12345x"` (the
grammar stops after `1234`, the leftover starts with the digit `5`), and the
count-position rule renders `"12345d20"` into the shape error at `5d20`. -/
theorem c3_too_many_digits_witness :
    parseRoll "1d12345x".data = some (.error .TooBig) ∧
    parseRoll ("12345".data ++ "d20".data)
      = some (.error (.ParseError (nomMessage ("12345".data.drop 4 ++ "d20".data)))) :=
  ⟨(c3_too_many_digits).2.2.2.1 "1d12345x".data "5x".data ⟨1, 1234, none, none⟩ '5' "x".data
      (by decide) (by decide) (by decide) (by decide) (by decide),
   ((c3_too_many_digits).2.2.2.2 "12345".data (by decide) (by decide)).1⟩

/-- Claim C4: a zero count or zero sides after a successful grammar match is
rejected with the dedicated `CannotBeZero` error, and no parsed spec ever
carries a zero count or zero sides. -/
theorem c4_cannot_be_zero :
    parseRoll "0d20".data = some (.error (.CannotBeZero "0d20".data)) ∧
    parseRoll "1d0".data = some (.error (.CannotBeZero "1d0".data)) ∧
    (∀ input r, parseRoll input = some (.ok r) → r.number ≠ 0 ∧ r.sides ≠ 0) := by
  refine ⟨by decide, by decide, ?_⟩
  intro input r h
  obtain ⟨rem, res, -, hz, -, hcase⟩ := parseRoll_ok_shape input r h
  rcases hcase with ⟨-, h'⟩ | ⟨-, h'⟩ <;> subst h' <;>
    exact ⟨fun h0 => hz (Or.inl h0), fun h0 => hz (Or.inr h0)⟩

/-- Witness for C4: the spec parsed from `"3d7"` has non-zero fields. -/
theorem c4_cannot_be_zero_witness :
    (⟨3, 7, none, none⟩ : RollSettings).number ≠ 0 ∧
    (⟨3, 7, none, none⟩ : RollSettings).sides ≠ 0 :=
  (c4_cannot_be_zero).2.2 "3d7".data ⟨3, 7, none, none⟩ (by decide)

/-- Claim C5: leftover text after the numeric grammar becomes the label,
trimmed of surrounding whitespace and `None` when empty: the two example
inputs parse as claimed, and every parsed label is non-empty and equal to its
own trim. -/
theorem c5_label_extraction :
    parseRoll "1d20 Wisdom saving throw".data
      = some (.ok ⟨1, 20, none, some "Wisdom saving throw".data⟩) ∧
    parseRoll "1d20+1Wisdom saving throw".data
      = some (.ok ⟨1, 20, some 1, some "Wisdom saving throw".data⟩) ∧
    (∀ input r l, parseRoll input = some (.ok r) → r.label = some l →
      l ≠ [] ∧ trim l = l) := by
  refine ⟨by decide, by decide, ?_⟩
  intro input r l h hl
  obtain ⟨rem, res, hi, -, -, hcase⟩ := parseRoll_ok_shape input r h
  rcases hcase with ⟨-, h'⟩ | ⟨ht, h'⟩
  · subst h'
    rw [parseRollInner_label_none input rem r hi] at hl
    simp at hl
  · subst h'
    simp only [Option.some.injEq] at hl
    subst hl
    exact ⟨ht, trim_trim rem⟩

/-- Witness for C5: the label parsed from `"1d6 x"` is non-empty and already
trimmed. -/
theorem c5_label_extraction_witness : "x".data ≠ [] ∧ trim "x".data = "x".data :=
  (c5_label_extraction).2.2 "1d6 x".data ⟨1, 6, none, some "x".data⟩ "x".data
    (by decide) (by decide)

/-- Claim C6: formatting a spec with count and sides in `[1, 9999]` and no
modifier and parsing the result recovers exactly the original count, sides
and absent modifier; with any modifier of magnitude in `[1, 9999]` the
round-trip also recovers the modifier with its sign. -/
theorem c6_round_trip (n m : Nat) (hn1 : 1 ≤ n) (hn2 : n ≤ 9999)
    (hm1 : 1 ≤ m) (hm2 : m ≤ 9999) :
    parseRoll (RollSettings.format_parameters ⟨n, m, none, none⟩)
      = some (.ok ⟨n, m, none, none⟩) ∧
    (∀ k : Int, 1 ≤ k.natAbs → k.natAbs ≤ 9999 →
      parseRoll (RollSettings.format_parameters ⟨n, m, some k, none⟩)
        = some (.ok ⟨n, m, some k, none⟩)) := by
  constructor
  · have hfmt : RollSettings.format_parameters ⟨n, m, none, none⟩
        = natRepr n ++ 'd' :: (natRepr m ++ []) := rfl
    rw [hfmt]
    exact parseRoll_of_inner_empty _ _ (parseRollInner_format_none n m hn2 hm2)
      (show n ≠ 0 by omega) (show m ≠ 0 by omega)
  · intro k hk1 hk2
    by_cases hk : k > 0
    · have hfmt : RollSettings.format_parameters ⟨n, m, some k, none⟩
          = natRepr n ++ 'd' :: (natRepr m ++ (' ' :: '+' :: ' ' :: natRepr k.toNat)) := by
        show natRepr n ++ 'd' :: (natRepr m ++ formatModifier (some k)) = _
        rw [show formatModifier (some k) = " + ".data ++ natRepr k.toNat by
          simp [formatModifier, hk]]
        rfl
      rw [hfmt]
      have hinner := parseRollInner_format_mod n m '+' k.toNat hn2 hm2 (by omega) (by decide)
      rw [if_neg (by decide : ¬ ('+' : Char) = '-'),
        Int.toNat_of_nonneg (by omega : (0 : Int) ≤ k)] at hinner
      exact parseRoll_of_inner_empty _ _ hinner (show n ≠ 0 by omega) (show m ≠ 0 by omega)
    · have hfmt : RollSettings.format_parameters ⟨n, m, some k, none⟩
          = natRepr n ++ 'd' :: (natRepr m ++ (' ' :: '-' :: ' ' :: natRepr (-k).toNat)) := by
        show natRepr n ++ 'd' :: (natRepr m ++ formatModifier (some k)) = _
        rw [show formatModifier (some k) = " - ".data ++ natRepr (-k).toNat by
          simp [formatModifier, hk]]
        rfl
      rw [hfmt]
      have hinner := parseRollInner_format_mod n m '-' (-k).toNat hn2 hm2 (by omega) (by decide)
      rw [if_pos (rfl : ('-' : Char) = '-'),
        Int.toNat_of_nonneg (by omega : (0 : Int) ≤ -k),
        (by omega : -(-k) = k)] at hinner
      exact parseRoll_of_inner_empty _ _ hinner (show n ≠ 0 by omega) (show m ≠ 0 by omega)

/-- Witness for C6 at `2d6` with and without the modifier `-3`. -/
theorem c6_round_trip_witness :
    parseRoll (RollSettings.format_parameters ⟨2, 6, none, none⟩)
      = some (.ok ⟨2, 6, none, none⟩) ∧
    parseRoll (RollSettings.format_parameters ⟨2, 6, some (-3), none⟩)
      = some (.ok ⟨2, 6, some (-3), none⟩) := by
  have h := c6_round_trip 2 6 (by decide) (by decide) (by decide) (by decide)
  exact ⟨h.1, h.2 (-3) (by decide) (by decide)⟩

/-- Claim C9, counterexample: the `TooBig` error value is a payload-free
constant, so two different inputs with different offending fragments produce
identical error values — the returned error cannot carry the offending
fragment in this case. -/
theorem c9_toobig_counterexample :
    parseRoll "1d100000".data = some (.error .TooBig) ∧
    parseRoll "7d65432".data = some (.error .TooBig) ∧
    "1d100000".data ≠ "7d65432".data := by decide

/-- Claim C9 (amended): parsing is total — every input yields a value, never
a panic, because every matched numeric field has at most 4 digits and so the
`u32`/`i32` conversions behind the internal `expect` calls always succeed —
and the `CannotBeZero` error carries the whole offending input while
`ParseError` carries the rendered fragment at the failure point; `TooBig`
however carries no fragment. -/
theorem c9_parse_totality (input : List Char) :
    (parseRoll input).isSome ∧
    (∀ s', parseRoll input = some (.error (.CannotBeZero s')) → s' = input) ∧
    (∀ m, parseRoll input = some (.error (.ParseError m)) →
      ∃ rest, m = "error OneOf at: ".data ++ rest) :=
  ⟨parseRoll_isSome input,
    fun s' h => parseRoll_zero_payload input s' h,
    fun m h => parseRoll_error_payload input m h⟩

/-- Witness for C9 (amended) at the input `"0d20"`. -/
theorem c9_parse_totality_witness :
    (parseRoll "0d20".data).isSome ∧ "0d20".data = "0d20".data :=
  ⟨(c9_parse_totality "0d20".data).1,
    (c9_parse_totality "0d20".data).2.1 "0d20".data (by decide)⟩

/-- Witness for C10 at a concrete one-die Advantage session. -/
theorem c10_session_witness :
    ((RollResults.new ⟨1, 6, none, none⟩ RollType.Advantage (fun _ => 3) (fun _ => 5)).try_two.isSome
      ↔ RollType.Advantage ≠ RollType.Straight) ∧
    (RollResults.new ⟨1, 6, none, none⟩ RollType.Advantage (fun _ => 3) (fun _ => 5)).result.isSome ∧
    (RollResults.new ⟨1, 6, none, none⟩ RollType.Advantage
      (fun _ => 3) (fun _ => 5)).results_index.isSome ∧
    (RollResults.new ⟨1, 6, none, none⟩ RollType.Advantage
      (fun _ => 3) (fun _ => 5)).try_one.format_results.isSome ∧
    (RollResults.new ⟨1, 6, none, none⟩ RollType.Advantage (fun _ => 3) (fun _ => 5)).display.isSome :=
  c10_session_invariant ⟨1, 6, none, none⟩ RollType.Advantage (fun _ => 3) (fun _ => 5) (by decide)

end DiceMaestro
